import Mathlib

/-!
Verification development for the EMAnnotationSchemas storage-model
compiler (`emannotationschemas/models.py`).

The Python module builds, for each annotation schema, a dictionary of
SQLAlchemy column declarations (a "table dict"), optionally split into an
annotation table and a segmentation table, and caches the resulting model
objects in a process-wide registry keyed by table name.

This file is a shallow embedding of that module.  Python dictionaries with
string keys become association lists (`List (String × _)`) so that the
insertion-order semantics of `dict.update`, `dict.pop` and item assignment
are preserved exactly.  Marshmallow field instances become the `FieldSpec`
structure recording exactly the attributes `models.py` reads: the field
class (`type(field)`), and the metadata entries `segmentation_field`,
`drop_column`, `index`, `metadata` (compared against
`MetaDataTypes.REFERENCE.value`) and `postgis_geometry`.  Exceptions become
an explicit `BuildError` sum returned through `Except`; functions that
mutate the global model registry additionally thread a `ModelStore` value
and report whether the model builder actually ran.
-/

/-- The class of a marshmallow field, as inspected by `type(field)` in
`add_column`.  `NestedT` stands for `mm.fields.Nested`; `UnknownT` stands
for any field class that has no entry in `field_column_map`.  The aliases
`mm.fields.Int`/`mm.fields.Integer` (and `Str`/`String`, `Bool`/`Boolean`)
are the same Python class, hence a single constructor each. -/
inductive FieldType where
  | ReferenceTableFieldT
  | NumericFieldT
  | PostGISFieldT
  | IntT
  | FloatT
  | StrT
  | BoolT
  | NestedT
  | UnknownT
  deriving DecidableEq, Repr

/-- One declared field: the field class plus the metadata entries read by
`models.py`.  `is_reference` models
`field.metadata.get("metadata") == MetaDataTypes.REFERENCE.value`
(the enum `MetaDataTypes` lives in `schemas/base.py`, outside the compiled
core; only the equality test matters here).  `postgis_geometry` models
`field.metadata.get("postgis_geometry", "POINTZ")` with its default
already applied. -/
structure FieldSpec where
  ftype : FieldType
  segmentation_field : Bool
  drop_column : Bool
  has_index : Bool
  is_reference : Bool
  postgis_geometry : String
  deriving DecidableEq, Repr

/-- A schema as `models.py` consumes it: the insertion-ordered
`_declared_fields` mapping of a marshmallow schema. -/
abbrev Schema := List (String × FieldSpec)

/-- The SQLAlchemy column type placed in a `Column(...)` call.
`GeometryC geom dim useNDIndex` is
`Geometry(geometry_type=geom, dimension=dim, use_N_D_index=useNDIndex)`. -/
inductive ColType where
  | BigIntegerC
  | IntegerC
  | FloatC
  | StringC
  | BooleanC
  | DateTimeC
  | GeometryC (geometry_type : String) (dimension : Nat) (use_N_D_index : Bool)
  deriving DecidableEq, Repr

/-- A `Column(...)` declaration: the column type and the keyword arguments
`models.py` passes (`ForeignKey(fk)` when `foreign_key = some fk`,
`primary_key`, `index`, `nullable`; SQLAlchemy defaults `primary_key` and
`index` to `false` and `nullable` to `true` when not passed). -/
structure Column where
  ctype : ColType
  foreign_key : Option String
  primary_key : Bool
  has_index : Bool
  nullable : Bool
  deriving DecidableEq, Repr

/-- A value stored in a table dict: `strE` for plain strings (the
`__tablename__` entry, and the transient `reference_table_name` entry set
by `validate_metadata`), `colE` for `Column` objects, `mapperE` for the
`__mapper_args__` dictionary with its `polymorphic_identity` and
`concrete` entries. -/
inductive Entry where
  | strE (s : String)
  | colE (c : Column)
  | mapperE (polymorphic_identity : String) (concrete : Bool)
  deriving DecidableEq, Repr

/-- A table dict: a Python `dict` from string keys to column declarations,
kept as an insertion-ordered association list. -/
abbrev Model := List (String × Entry)

/-- The `table_metadata` argument as Python sees it: either not a `dict`
at all (which includes the default `None`), or a `dict` whose
`"reference_table"` entry is present or absent — the only key
`models.py` reads. -/
inductive PyMeta where
  | notDict
  | dict (reference_table : Option String)
  deriving DecidableEq, Repr

/-- The exceptions the compiled core can raise.  `KeyErrorE` models the
uncaught Python `KeyError` from `dict.pop` with no default;
`AttributeErrorE` models the uncaught `AttributeError` from calling
`.get` on `None`; `NestedSchemaError` models the bare `Exception` raised
by `split_annotation_schema` on a nested field. -/
inductive BuildError where
  | InvalidTableMetaDataException (msg : String)
  | InvalidSchemaField (msg : String)
  | UnknownAnnotationTypeException (msg : String)
  | KeyErrorE (key : String)
  | AttributeErrorE (msg : String)
  | NestedSchemaError (msg : String)
  deriving DecidableEq, Repr

/-- Lookup in an insertion-ordered association list: Python `d[k]` /
`d.get(k)` (first — and by construction only — occurrence of the key). -/
def aGet {α : Type} : List (String × α) → String → Option α
  | [], _ => none
  | kv :: rest, k => if kv.1 = k then some kv.2 else aGet rest k

/-- Item assignment `d[k] = v` on an insertion-ordered dict: replace the
value in place if the key exists, else append at the end. -/
def aSet {α : Type} : List (String × α) → String → α → List (String × α)
  | [], k, v => [(k, v)]
  | kv :: rest, k, v =>
    if kv.1 = k then (k, v) :: rest else kv :: aSet rest k v

/-- `d.pop(k)` with no default: remove the entry and return its value,
or `none` (→ `KeyError`) when the key is absent. -/
def aPop {α : Type} : List (String × α) → String → Option (α × List (String × α))
  | [], _ => none
  | kv :: rest, k =>
    if kv.1 = k then some (kv.2, rest)
    else
      match aPop rest k with
      | some (v, m) => some (v, kv :: m)
      | none => none

/-- The keys of an association list, in order. -/
def keysOf {α : Type} (m : List (String × α)) : List String :=
  m.map (fun kv => kv.1)

/-- How many entries of the dict carry key `k` (1 for a genuine dict
containing `k`, 0 otherwise). -/
def countKey {α : Type} (m : List (String × α)) (k : String) : Nat :=
  m.countP (fun kv => kv.1 = k)

/-- The `field_column_map` module constant: marshmallow field class →
SQLAlchemy column type; `none` when the class has no entry. -/
def field_column_map : FieldType → Option ColType
  | .ReferenceTableFieldT => some .BigIntegerC
  | .NumericFieldT => some .BigIntegerC
  | .PostGISFieldT => some (.GeometryC "GEOMETRY" 0 false)
  | .IntT => some .IntegerC
  | .FloatT => some .FloatC
  | .StrT => some .StringC
  | .BoolT => some .BooleanC
  | .NestedT => none
  | .UnknownT => none

/-- Printable name of a field class, used in the `InvalidSchemaField`
message. -/
def fieldTypeName : FieldType → String
  | .ReferenceTableFieldT => "ReferenceTableField"
  | .NumericFieldT => "NumericField"
  | .PostGISFieldT => "PostGISField"
  | .IntT => "Integer"
  | .FloatT => "Float"
  | .StrT => "String"
  | .BoolT => "Boolean"
  | .NestedT => "Nested"
  | .UnknownT => "Unknown"

/-- `validate_metadata(model, field, table_metadata)`: when the field's
`metadata` entry equals `MetaDataTypes.REFERENCE.value`, require
`table_metadata` to be a dict containing `"reference_table"` and stash
that value under the `"reference_table_name"` key of the model dict;
otherwise return the model unchanged. -/
def validate_metadata (model : Model) (field : FieldSpec) (table_metadata : PyMeta) :
    Except BuildError Model :=
  if field.is_reference then
    match table_metadata with
    | .notDict =>
      .error (.InvalidTableMetaDataException "no metadata provided for reference annotation")
    | .dict none =>
      .error (.InvalidTableMetaDataException "reference table not specified in metadata")
    | .dict (some r) => .ok (aSet model "reference_table_name" (.strE r))
  else
    .ok model

/-- The string held by an `Entry.strE`; dead default for the other
constructors (in `models.py` the `reference_table_name` slot only ever
holds a string). -/
def entryStr : Entry → String
  | .strE s => s
  | _ => ""

/-- `add_column(model, key, field)`: map the field class through
`field_column_map` (raising `InvalidSchemaField` when absent); geometry
fields get a 3-d geometry column carrying the index flag inside the
`Geometry` type, reference fields pop `"reference_table_name"` from the
model dict (uncaught `KeyError` when absent) and become a big-integer
foreign key to `<reference_table_name>.id`, and every other mapped class
becomes a plain column with the field's index flag. -/
def add_column (model : Model) (key : String) (field : FieldSpec) :
    Except BuildError Model :=
  match field_column_map field.ftype with
  | none =>
    .error (.InvalidSchemaField ("field type " ++ fieldTypeName field.ftype ++ " not supported"))
  | some ct =>
    if field.ftype = .PostGISFieldT then
      .ok (aSet model key
        (.colE ⟨.GeometryC field.postgis_geometry 3 field.has_index, none, false, false, true⟩))
    else if field.ftype = .ReferenceTableFieldT then
      match aPop model "reference_table_name" with
      | none => .error (.KeyErrorE "reference_table_name")
      | some (v, model2) =>
        .ok (aSet model2 key
          (.colE ⟨.BigIntegerC, some (entryStr v ++ ".id"), false, field.has_index, true⟩))
    else
      .ok (aSet model key (.colE ⟨ct, none, false, field.has_index, true⟩))

/-- One iteration of the field loop in `create_table_dict`: skip fields
whose metadata sets `drop_column`, otherwise run `validate_metadata` then
`add_column`. -/
def processField (table_metadata : PyMeta) (model : Model) (kv : String × FieldSpec) :
    Except BuildError Model :=
  if kv.2.drop_column then .ok model
  else
    match validate_metadata model kv.2 table_metadata with
    | .error e => .error e
    | .ok m1 => add_column m1 kv.1 kv.2

/-- The field loop of `create_table_dict`, folding `processField` over the
schema's declared fields in order. -/
def processFields (table_metadata : PyMeta) (model : Model) :
    Schema → Except BuildError Model
  | [] => .ok model
  | kv :: rest =>
    match processField table_metadata model kv with
    | .error e => .error e
    | .ok m1 => processFields table_metadata m1 rest

/-- Python truthiness of the `segmentation_source` argument: `None` and
the empty string are falsy. -/
def truthyStr : Option String → Bool
  | none => false
  | some s => !(s = "")

/-- The header entries of the table dict (`__tablename__`, the `id`
primary-key column, `__mapper_args__`), for the segmentation-suffixed and
the plain branch of `create_table_dict`. -/
def tableBase (table_name : String) (segmentation_source : Option String) : Model :=
  if truthyStr segmentation_source then
    [("__tablename__", .strE (table_name ++ "__" ++ segmentation_source.getD "")),
     ("id", .colE ⟨.BigIntegerC, some (table_name ++ ".id"), true, false, true⟩),
     ("__mapper_args__",
       .mapperE (table_name ++ "__" ++ segmentation_source.getD "") true)]
  else
    [("__tablename__", .strE table_name),
     ("id", .colE ⟨.BigIntegerC, none, true, false, true⟩),
     ("__mapper_args__", .mapperE table_name true)]

/-- The audit entries added when `with_crud_columns` is set: `created`
(timestamp, indexed, `nullable=False`), `deleted` (timestamp, indexed),
and `superceded_id` (big integer) — the key is spelled exactly as in the
source. -/
def crudColumns : Model :=
  [("created", .colE ⟨.DateTimeC, none, false, true, false⟩),
   ("deleted", .colE ⟨.DateTimeC, none, false, true, true⟩),
   ("superceded_id", .colE ⟨.BigIntegerC, none, false, false, true⟩)]

/-- `create_table_dict(table_name, Schema, segmentation_source,
table_metadata, with_crud_columns)`: header entries, optional audit
entries, then one pass of `validate_metadata`/`add_column` per
non-dropped declared field. -/
def create_table_dict (table_name : String) (s : Schema)
    (segmentation_source : Option String) (table_metadata : PyMeta)
    (with_crud_columns : Bool) : Except BuildError Model :=
  processFields table_metadata
    (tableBase table_name segmentation_source ++ (if with_crud_columns then crudColumns else []))
    s

/-- Modelled from the spec: `create_flattened_schema` lives in
`emannotationschemas/flatten.py`, which is not part of the compiled core
sources; per the spec it returns a flat field list with prefixed names and
no nested sub-schemas remaining, and on an already-flat schema it is the
identity.  Schemas are modelled here as flat field lists, so the flattener
is the identity; a `NestedT` field surviving in its output represents a
violation of the flattener contract reaching downstream code, which
`split_annotation_schema` checks for. -/
def create_flattened_schema (s : Schema) : Schema := s

/-- `split_annotation_schema(Schema)`: flatten, fail on any remaining
nested field, then split the declared fields in order into the annotation
bucket (falsy `segmentation_field` metadata) and the segmentation bucket
(truthy `segmentation_field`). -/
def split_annotation_schema (s : Schema) :
    Except BuildError (Schema × Schema) :=
  let flat := create_flattened_schema s
  if flat.any (fun kv => kv.2.ftype = .NestedT) then
    .error (.NestedSchemaError "Schema must be flattened before splitting")
  else
    .ok (flat.filter (fun kv => !kv.2.segmentation_field),
         flat.filter (fun kv => kv.2.segmentation_field))

/-- `create_sqlalchemy_model`: build the table dict and materialise it as
a declarative model class.  The runtime `type(...)` call only wraps the
table dict, so the model is represented by the table dict itself. -/
def create_sqlalchemy_model (table_name : String) (s : Schema)
    (segmentation_source : Option String) (table_metadata : PyMeta)
    (with_crud_columns : Bool) : Except BuildError Model :=
  create_table_dict table_name s segmentation_source table_metadata with_crud_columns

/-- The `ModelStore` registry: the `container` mapping for full models and
the independent `flat_container` mapping for flattened models, both keyed
by table name. -/
structure ModelStore where
  container : List (String × Model)
  flat_container : List (String × Model)
  deriving DecidableEq, Repr

/-- `ModelStore.contains_model(table_name, flat)`. -/
def contains_model (st : ModelStore) (table_name : String) (flat : Bool) : Bool :=
  if flat then (aGet st.flat_container table_name).isSome
  else (aGet st.container table_name).isSome

/-- `ModelStore.get_model(table_name, flat)`; `none` models the `KeyError`
Python would raise on a missing key. -/
def get_model (st : ModelStore) (table_name : String) (flat : Bool) : Option Model :=
  if flat then aGet st.flat_container table_name
  else aGet st.container table_name

/-- `ModelStore.set_model(table_name, model, flat)`. -/
def set_model (st : ModelStore) (table_name : String) (model : Model) (flat : Bool) :
    ModelStore :=
  if flat then { st with flat_container := aSet st.flat_container table_name model }
  else { st with container := aSet st.container table_name model }

/-- `make_model_from_schema`: if the full container already holds the
table name, return the cached model (the returned `Bool` reports whether
the builder ran — `false` on a cache hit); otherwise split the schema and
build either the segmentation model (truthy `segmentation_source`, from
the segmentation bucket) or the annotation model (from the annotation
bucket), store it under the table name, and return it.  The registry is
threaded explicitly in place of the module-global `sqlalchemy_models`;
on an error the store comes back unchanged, mirroring that `set_model`
runs only after a successful build. -/
def make_model_from_schema (st : ModelStore) (table_name : String) (s : Schema)
    (segmentation_source : Option String) (table_metadata : PyMeta)
    (with_crud_columns : Bool) : ModelStore × Except BuildError (Model × Bool) :=
  if contains_model st table_name false then
    match get_model st table_name false with
    | some m => (st, .ok (m, false))
    | none => (st, .error (.KeyErrorE table_name))
  else
    match split_annotation_schema s with
    | .error e => (st, .error e)
    | .ok (annotation_columns, segmentation_columns) =>
      let built :=
        if truthyStr segmentation_source then
          create_sqlalchemy_model table_name segmentation_columns
            segmentation_source table_metadata with_crud_columns
        else
          create_sqlalchemy_model table_name annotation_columns
            none table_metadata with_crud_columns
      match built with
      | .error e => (st, .error e)
      | .ok model => (set_model st table_name model false, .ok (model, true))

/-- `make_flat_model_from_schema`: the flat-container analogue — flatten
the schema, build a single table dict with `with_crud_columns=False`, and
cache it in `flat_container` under the table name. -/
def make_flat_model_from_schema (st : ModelStore) (table_name : String) (s : Schema)
    (segmentation_source : Option String) (table_metadata : PyMeta) :
    ModelStore × Except BuildError (Model × Bool) :=
  if contains_model st table_name true then
    match get_model st table_name true with
    | some m => (st, .ok (m, false))
    | none => (st, .error (.KeyErrorE table_name))
  else
    let flat_schema := create_flattened_schema s
    match create_table_dict table_name flat_schema segmentation_source
        table_metadata false with
    | .error e => (st, .error e)
    | .ok model => (set_model st table_name model true, .ok (model, true))

/-- `make_sqlalchemy_model`: resolve the schema type through the schema
registry and delegate to `make_model_from_schema`.  The collaborator
`get_schema` (from the package root, outside the compiled core) is passed
as a function argument per the spec's input contract. -/
def make_sqlalchemy_model (get_schema : String → Except BuildError Schema)
    (st : ModelStore) (table_name : String) (schema_type : String)
    (segmentation_source : Option String) (table_metadata : PyMeta)
    (with_crud_columns : Bool) : ModelStore × Except BuildError (Model × Bool) :=
  match get_schema schema_type with
  | .error e => (st, .error e)
  | .ok s =>
    make_model_from_schema st table_name s segmentation_source table_metadata
      with_crud_columns

/-- Python `repr` of a list of strings, as produced by the f-string
`f"\x7bbad_types\x7d are invalid types"` (single-quoted items, comma-space
separated, in square brackets). -/
def pyListRepr (l : List String) : String :=
  "[" ++ String.intercalate ", " (l.map (fun s => "\x27" ++ s ++ "\x27")) ++ "]"

/-- `validate_types(schemas_and_tables)`: check every schema name against
the registered types; on failure collect every offending schema name, in
order with duplicates, into the exception message.  The collaborator
`get_types()` (package root, outside the compiled core) is passed as the
`all_types` argument per the spec's input contract. -/
def validate_types (all_types : List String)
    (schemas_and_tables : List (String × String)) : Except BuildError Unit :=
  if schemas_and_tables.all (fun p => decide (p.1 ∈ all_types)) then .ok ()
  else
    let bad_types :=
      (schemas_and_tables.filter (fun p => !decide (p.1 ∈ all_types))).map (fun p => p.1)
    .error (.UnknownAnnotationTypeException (pyListRepr bad_types ++ " are invalid types"))

/-- The per-pair loop of `make_dataset_models`: look the table's metadata
up in `metadata_dict` (an uncaught `AttributeError` when that argument was
left at its `None` default), build the model through
`make_sqlalchemy_model`, and record it in the dataset dict under the
table name. -/
def datasetLoop (get_schema : String → Except BuildError Schema) (st : ModelStore)
    (segmentation_source : Option String)
    (metadata_dict : Option (List (String × PyMeta))) (with_crud_columns : Bool)
    (acc : List (String × Model)) :
    List (String × String) → ModelStore × Except BuildError (List (String × Model))
  | [] => (st, .ok acc)
  | (schema_name, table_name) :: rest =>
    match metadata_dict with
    | none => (st, .error (.AttributeErrorE "NoneType object has no attribute get"))
    | some md =>
      let table_metadata := (aGet md table_name).getD .notDict
      match make_sqlalchemy_model get_schema st table_name schema_name
          segmentation_source table_metadata with_crud_columns with
      | (st1, .error e) => (st1, .error e)
      | (st1, .ok (model, _)) =>
        datasetLoop get_schema st1 segmentation_source metadata_dict
          with_crud_columns (aSet acc table_name model) rest

/-- `make_dataset_models`: validate every schema name, build one model per
(schema name, table name) pair, and optionally add the fixed contact
model under key `"contact"`.  `get_schema`, the registered-type list and
the `Contact` schema (all defined outside the compiled core) are passed
as arguments per the spec's input contract. -/
def make_dataset_models (get_schema : String → Except BuildError Schema)
    (all_types : List String) (Contact : Schema) (st : ModelStore)
    (aligned_volume : String) (schemas_and_tables : List (String × String))
    (segmentation_source : Option String) (include_contacts : Bool)
    (metadata_dict : Option (List (String × PyMeta))) (with_crud_columns : Bool) :
    ModelStore × Except BuildError (List (String × Model)) :=
  match validate_types all_types schemas_and_tables with
  | .error e => (st, .error e)
  | .ok _ =>
    match datasetLoop get_schema st segmentation_source metadata_dict
        with_crud_columns [] schemas_and_tables with
    | (st1, .error e) => (st1, .error e)
    | (st1, .ok dataset_dict) =>
      if include_contacts then
        match make_model_from_schema st1 (aligned_volume ++ "__contact") Contact
            none .notDict true with
        | (st2, .error e) => (st2, .error e)
        | (st2, .ok (contact_model, _)) =>
          (st2, .ok (aSet dataset_dict "contact" contact_model))
      else (st1, .ok dataset_dict)

theorem keysOf_append {α : Type} (m m2 : List (String × α)) :
    keysOf (m ++ m2) = keysOf m ++ keysOf m2 := by
  simp [keysOf]

theorem aGet_eq_none {α : Type} {m : List (String × α)} {k : String}
    (h : k ∉ keysOf m) : aGet m k = none := by
  induction m with
  | nil => rfl
  | cons kv rest ih =>
    simp only [keysOf, List.map_cons, List.mem_cons, not_or] at h
    have hne : kv.1 ≠ k := fun e => h.1 e.symm
    simp only [aGet, if_neg hne]
    exact ih h.2

theorem aGet_append_right {α : Type} {m : List (String × α)}
    (m2 : List (String × α)) {k : String} (h : k ∉ keysOf m) :
    aGet (m ++ m2) k = aGet m2 k := by
  induction m with
  | nil => rfl
  | cons kv rest ih =>
    simp only [keysOf, List.map_cons, List.mem_cons, not_or] at h
    have hne : kv.1 ≠ k := fun e => h.1 e.symm
    simp only [List.cons_append, aGet, if_neg hne]
    exact ih h.2

theorem aSet_fresh {α : Type} {m : List (String × α)} {k : String} (v : α)
    (h : k ∉ keysOf m) : aSet m k v = m ++ [(k, v)] := by
  induction m with
  | nil => rfl
  | cons kv rest ih =>
    simp only [keysOf, List.map_cons, List.mem_cons, not_or] at h
    have hne : kv.1 ≠ k := fun e => h.1 e.symm
    simp only [aSet, if_neg hne, List.cons_append, List.cons.injEq, true_and]
    exact ih h.2

theorem aPop_append_fresh {α : Type} {m : List (String × α)} {k : String} (v : α)
    (h : k ∉ keysOf m) : aPop (m ++ [(k, v)]) k = some (v, m) := by
  induction m with
  | nil => simp [aPop]
  | cons kv rest ih =>
    simp only [keysOf, List.map_cons, List.mem_cons, not_or] at h
    have hne : kv.1 ≠ k := fun e => h.1 e.symm
    have hrec := ih h.2
    simp only [List.cons_append, aPop, if_neg hne, List.append_eq]
    rw [hrec]

theorem aGet_aSet_self {α : Type} (m : List (String × α)) (k : String) (v : α) :
    aGet (aSet m k v) k = some v := by
  induction m with
  | nil => simp [aSet, aGet]
  | cons kv rest ih =>
    by_cases hk : kv.1 = k
    · simp [aSet, aGet, hk]
    · simp [aSet, aGet, hk, ih]

theorem aGet_aSet_ne {α : Type} (m : List (String × α)) {k k2 : String} (v : α)
    (h : k2 ≠ k) : aGet (aSet m k v) k2 = aGet m k2 := by
  have hks : ¬ k = k2 := fun e => h e.symm
  induction m with
  | nil => simp [aSet, aGet, hks]
  | cons kv rest ih =>
    by_cases hk : kv.1 = k
    · subst hk
      simp [aSet, aGet, hks]
    · by_cases hk2 : kv.1 = k2
      · simp [aSet, aGet, hk, hk2, h]
      · simp [aSet, aGet, hk, hk2, ih]

theorem aGet_aPop_ne {α : Type} {m m2 : List (String × α)} {k : String} {v : α}
    (h : aPop m k = some (v, m2)) {k2 : String} (hne : k2 ≠ k) :
    aGet m2 k2 = aGet m k2 := by
  induction m generalizing m2 with
  | nil => simp [aPop] at h
  | cons kv rest ih =>
    by_cases hk : kv.1 = k
    · simp only [aPop, if_pos hk] at h
      injection h with h
      injection h with h1 h2
      subst h2
      have hne2 : ¬ kv.1 = k2 := by rw [hk]; exact fun e => hne e.symm
      simp [aGet, hne2]
    · simp only [aPop, if_neg hk] at h
      cases hrest : aPop rest k with
      | none =>
        rw [hrest] at h
        exact Option.noConfusion h
      | some p =>
        obtain ⟨v2, mrest⟩ := p
        simp only [hrest] at h
        injection h with h
        injection h with h1 h2
        subst h2
        by_cases hk2 : kv.1 = k2
        · simp [aGet, hk2]
        · simp only [aGet, if_neg hk2]
          exact ih (h1 ▸ hrest)

/-- A field whose REFERENCE-metadata flag agrees with its class being
`ReferenceTableField`.  Every field family the repository's schemas
declare satisfies this; the mismatched combinations take the stray paths
of `validate_metadata`/`add_column` analysed separately below. -/
def coherent (f : FieldSpec) : Prop :=
  f.is_reference = decide (f.ftype = FieldType.ReferenceTableFieldT)

/-- The per-field outcome of `validate_metadata` followed by `add_column`
for a coherent field, with the dict bookkeeping stripped: either the
column the field contributes or the error that aborts the build. -/
def mapField (tm : PyMeta) (f : FieldSpec) : Except BuildError Column :=
  if f.is_reference then
    match tm with
    | .notDict =>
      .error (.InvalidTableMetaDataException "no metadata provided for reference annotation")
    | .dict none =>
      .error (.InvalidTableMetaDataException "reference table not specified in metadata")
    | .dict (some r) => .ok ⟨.BigIntegerC, some (r ++ ".id"), false, f.has_index, true⟩
  else
    match field_column_map f.ftype with
    | none =>
      .error (.InvalidSchemaField ("field type " ++ fieldTypeName f.ftype ++ " not supported"))
    | some ct =>
      if f.ftype = .PostGISFieldT then
        .ok ⟨.GeometryC f.postgis_geometry 3 f.has_index, none, false, false, true⟩
      else .ok ⟨ct, none, false, f.has_index, true⟩

/-- The columns contributed by the retained (non-dropped) fields of a
schema, in declaration order, or the first error raised. -/
def mapRetained (tm : PyMeta) : Schema → Except BuildError (List (String × Entry))
  | [] => .ok []
  | (k, f) :: rest =>
    if f.drop_column then mapRetained tm rest
    else
      match mapField tm f with
      | .error e => .error e
      | .ok c =>
        match mapRetained tm rest with
        | .error e => .error e
        | .ok cols => .ok ((k, .colE c) :: cols)

theorem processField_step (tm : PyMeta) {m : Model} {k : String} {f : FieldSpec}
    (hcohf : coherent f) (hkfresh : k ∉ keysOf m)
    (hrtn : "reference_table_name" ∉ keysOf m)
    (hdrop : f.drop_column = false) :
    processField tm m (k, f) =
      match mapField tm f with
      | .error e => .error e
      | .ok c => .ok (m ++ [(k, Entry.colE c)]) := by
  unfold processField
  simp only [hdrop, Bool.false_eq_true, if_false]
  cases hiref : f.is_reference with
  | true =>
    have hft : f.ftype = .ReferenceTableFieldT := by
      unfold coherent at hcohf
      rw [hiref] at hcohf
      exact of_decide_eq_true hcohf.symm
    cases tm with
    | notDict => simp [validate_metadata, mapField, hiref]
    | dict ref =>
      cases ref with
      | none => simp [validate_metadata, mapField, hiref]
      | some r =>
        simp only [validate_metadata, mapField, hiref, if_true]
        rw [aSet_fresh _ hrtn]
        unfold add_column
        rw [hft]
        simp only [field_column_map]
        rw [if_neg (by decide), if_pos trivial, aPop_append_fresh _ hrtn]
        simp [entryStr, aSet_fresh _ hkfresh]
  | false =>
    have hft : f.ftype ≠ .ReferenceTableFieldT := by
      unfold coherent at hcohf
      rw [hiref] at hcohf
      intro he
      rw [he] at hcohf
      simp at hcohf
    simp only [validate_metadata, mapField, hiref, Bool.false_eq_true, if_false]
    unfold add_column
    cases hmap : field_column_map f.ftype with
    | none => simp
    | some ct =>
      by_cases hpg : f.ftype = .PostGISFieldT
      · simp only [hpg, if_pos trivial]
        rw [aSet_fresh _ hkfresh]
      · simp only [if_neg hpg, if_neg hft]
        rw [aSet_fresh _ hkfresh]

theorem processFields_eq (tm : PyMeta) (fields : Schema) :
    ∀ (m : Model),
      (∀ kf ∈ fields, coherent kf.2) →
      (∀ kf ∈ fields, kf.1 ∉ keysOf m) →
      (fields.map (fun kv => kv.1)).Nodup →
      "reference_table_name" ∉ keysOf m →
      (∀ kf ∈ fields, kf.1 ≠ "reference_table_name") →
      processFields tm m fields =
        match mapRetained tm fields with
        | .error e => .error e
        | .ok cols => .ok (m ++ cols) := by
  induction fields with
  | nil =>
    intro m _ _ _ _ _
    simp [processFields, mapRetained]
  | cons kf rest ih =>
    obtain ⟨k, f⟩ := kf
    intro m hcoh hfresh hnodup hrtn hnames
    have hcohf : coherent f := hcoh (k, f) (List.mem_cons_self _ _)
    have hkfresh : k ∉ keysOf m := hfresh (k, f) (List.mem_cons_self _ _)
    have hkrtn : k ≠ "reference_table_name" := hnames (k, f) (List.mem_cons_self _ _)
    rw [List.map_cons, List.nodup_cons] at hnodup
    obtain ⟨hknotin, hnodupr⟩ := hnodup
    have hcoh2 : ∀ kf ∈ rest, coherent kf.2 :=
      fun kf hk => hcoh kf (List.mem_cons_of_mem _ hk)
    have hfresh2 : ∀ kf ∈ rest, kf.1 ∉ keysOf m :=
      fun kf hk => hfresh kf (List.mem_cons_of_mem _ hk)
    have hnames2 : ∀ kf ∈ rest, kf.1 ≠ "reference_table_name" :=
      fun kf hk => hnames kf (List.mem_cons_of_mem _ hk)
    have hpfs : processFields tm m ((k, f) :: rest) =
        match processField tm m (k, f) with
        | .error e => .error e
        | .ok m1 => processFields tm m1 rest := rfl
    have hmr : mapRetained tm ((k, f) :: rest) =
        if f.drop_column then mapRetained tm rest
        else
          match mapField tm f with
          | .error e => .error e
          | .ok c =>
            match mapRetained tm rest with
            | .error e => .error e
            | .ok cols => .ok ((k, Entry.colE c) :: cols) := rfl
    cases hdrop : f.drop_column with
    | true =>
      have hpf : processField tm m (k, f) = .ok m := by
        unfold processField
        simp [hdrop]
      rw [hpfs, hpf, hmr, if_pos hdrop]
      exact ih m hcoh2 hfresh2 hnodupr hrtn hnames2
    | false =>
      have hpf := processField_step tm hcohf hkfresh hrtn hdrop
      have hnd : ¬ (f.drop_column = true) := by rw [hdrop]; simp
      rw [hpfs, hpf, hmr, if_neg hnd]
      cases hmf : mapField tm f with
      | error e => rfl
      | ok c =>
        have hfresh3 : ∀ kf ∈ rest, kf.1 ∉ keysOf (m ++ [(k, Entry.colE c)]) := by
          intro kf hk
          rw [keysOf_append]
          intro hmem
          rcases List.mem_append.mp hmem with h1 | h1
          · exact hfresh2 kf hk h1
          · have : kf.1 = k := by simpa [keysOf] using h1
            exact hknotin (this ▸ List.mem_map_of_mem (fun kv => kv.1) hk)
        have hrtn3 : "reference_table_name" ∉ keysOf (m ++ [(k, Entry.colE c)]) := by
          rw [keysOf_append]
          intro hmem
          rcases List.mem_append.mp hmem with h1 | h1
          · exact hrtn h1
          · have : "reference_table_name" = k := by simpa [keysOf] using h1
            exact hkrtn this.symm
        cases hrest : mapRetained tm rest with
        | error e =>
          show processFields tm (m ++ [(k, Entry.colE c)]) rest = Except.error e
          rw [ih (m ++ [(k, Entry.colE c)]) hcoh2 hfresh3 hnodupr hrtn3 hnames2, hrest]
        | ok cols =>
          show processFields tm (m ++ [(k, Entry.colE c)]) rest =
            Except.ok (m ++ (k, Entry.colE c) :: cols)
          rw [ih (m ++ [(k, Entry.colE c)]) hcoh2 hfresh3 hnodupr hrtn3 hnames2, hrest]
          simp

theorem validate_metadata_preserves {m m1 : Model} {f : FieldSpec} {tm : PyMeta}
    (h : validate_metadata m f tm = .ok m1) {k : String}
    (hk : k ≠ "reference_table_name") : aGet m1 k = aGet m k := by
  unfold validate_metadata at h
  cases hiref : f.is_reference with
  | false =>
    rw [hiref] at h
    simp only [Bool.false_eq_true, if_false] at h
    injection h with h
    rw [h]
  | true =>
    rw [hiref] at h
    simp only [if_true] at h
    cases tm with
    | notDict => exact Except.noConfusion h
    | dict ref =>
      cases ref with
      | none => exact Except.noConfusion h
      | some r =>
        injection h with h
        rw [← h]
        exact aGet_aSet_ne m _ hk

theorem add_column_preserves {m m1 : Model} {key : String} {f : FieldSpec}
    (h : add_column m key f = .ok m1) {k : String} (hk : k ≠ key)
    (hr : k ≠ "reference_table_name") : aGet m1 k = aGet m k := by
  unfold add_column at h
  cases hmap : field_column_map f.ftype with
  | none =>
    rw [hmap] at h
    exact Except.noConfusion h
  | some ct =>
    simp only [hmap] at h
    by_cases hpg : f.ftype = .PostGISFieldT
    · rw [if_pos hpg] at h
      injection h with h
      rw [← h]
      exact aGet_aSet_ne m _ hk
    · rw [if_neg hpg] at h
      by_cases hrt : f.ftype = .ReferenceTableFieldT
      · rw [if_pos hrt] at h
        cases hpop : aPop m "reference_table_name" with
        | none =>
          rw [hpop] at h
          exact Except.noConfusion h
        | some p =>
          obtain ⟨v, m2⟩ := p
          simp only [hpop] at h
          injection h with h
          rw [← h, aGet_aSet_ne m2 _ hk]
          exact aGet_aPop_ne hpop hr
      · rw [if_neg hrt] at h
        injection h with h
        rw [← h]
        exact aGet_aSet_ne m _ hk

theorem processField_preserves {tm : PyMeta} {m m1 : Model} {kv : String × FieldSpec}
    (h : processField tm m kv = .ok m1) {k : String} (hk : k ≠ kv.1)
    (hr : k ≠ "reference_table_name") : aGet m1 k = aGet m k := by
  unfold processField at h
  by_cases hdrop : kv.2.drop_column = true
  · rw [if_pos hdrop] at h
    injection h with h
    rw [h]
  · rw [if_neg hdrop] at h
    cases hv : validate_metadata m kv.2 tm with
    | error e =>
      rw [hv] at h
      exact Except.noConfusion h
    | ok mv =>
      rw [hv] at h
      rw [add_column_preserves h hk hr]
      exact validate_metadata_preserves hv hr

theorem processFields_preserves {tm : PyMeta} :
    ∀ {fields : Schema} {m m1 : Model},
      processFields tm m fields = .ok m1 →
      ∀ {k : String}, k ∉ fields.map (fun kv => kv.1) →
      k ≠ "reference_table_name" → aGet m1 k = aGet m k := by
  intro fields
  induction fields with
  | nil =>
    intro m m1 h k _ _
    injection h with h
    rw [h]
  | cons kf rest ih =>
    intro m m1 h k hk hr
    have hpfs : processFields tm m (kf :: rest) =
        match processField tm m kf with
        | .error e => .error e
        | .ok mx => processFields tm mx rest := rfl
    rw [hpfs] at h
    cases hpf : processField tm m kf with
    | error e =>
      rw [hpf] at h
      exact Except.noConfusion h
    | ok mx =>
      rw [hpf] at h
      rw [List.map_cons, List.mem_cons, not_or] at hk
      rw [ih h hk.2 hr]
      exact processField_preserves hpf hk.1 hr

theorem keysOf_mapRetained (tm : PyMeta) :
    ∀ (fields : Schema) (cols : List (String × Entry)),
      mapRetained tm fields = .ok cols →
      keysOf cols = (fields.filter (fun kv => !kv.2.drop_column)).map (fun kv => kv.1) := by
  intro fields
  induction fields with
  | nil =>
    intro cols h
    injection h with h
    rw [← h]
    rfl
  | cons kf rest ih =>
    obtain ⟨k, f⟩ := kf
    intro cols h
    have hmr : mapRetained tm ((k, f) :: rest) =
        if f.drop_column then mapRetained tm rest
        else
          match mapField tm f with
          | .error e => .error e
          | .ok c =>
            match mapRetained tm rest with
            | .error e => .error e
            | .ok cols => .ok ((k, Entry.colE c) :: cols) := rfl
    rw [hmr] at h
    cases hdrop : f.drop_column with
    | true =>
      rw [if_pos hdrop] at h
      rw [ih cols h, List.filter_cons]
      simp [hdrop]
    | false =>
      rw [if_neg (by rw [hdrop]; simp)] at h
      cases hmf : mapField tm f with
      | error e =>
        rw [hmf] at h
        exact Except.noConfusion h
      | ok c =>
        rw [hmf] at h
        cases hrest : mapRetained tm rest with
        | error e =>
          rw [hrest] at h
          exact Except.noConfusion h
        | ok cols2 =>
          rw [hrest] at h
          injection h with h
          rw [← h,
            show keysOf ((k, Entry.colE c) :: cols2) = k :: keysOf cols2 from rfl,
            ih cols2 hrest, List.filter_cons]
          simp [hdrop]

theorem mapRetained_colE (tm : PyMeta) :
    ∀ (fields : Schema) (cols : List (String × Entry)),
      mapRetained tm fields = .ok cols →
      ∀ kv ∈ cols, ∃ c, kv.2 = Entry.colE c := by
  intro fields
  induction fields with
  | nil =>
    intro cols h kv hkv
    injection h with h
    rw [← h] at hkv
    exact absurd hkv (List.not_mem_nil kv)
  | cons kf rest ih =>
    obtain ⟨k, f⟩ := kf
    intro cols h kv hkv
    have hmr : mapRetained tm ((k, f) :: rest) =
        if f.drop_column then mapRetained tm rest
        else
          match mapField tm f with
          | .error e => .error e
          | .ok c =>
            match mapRetained tm rest with
            | .error e => .error e
            | .ok cols => .ok ((k, Entry.colE c) :: cols) := rfl
    rw [hmr] at h
    cases hdrop : f.drop_column with
    | true =>
      rw [if_pos hdrop] at h
      exact ih cols h kv hkv
    | false =>
      rw [if_neg (by rw [hdrop]; simp)] at h
      cases hmf : mapField tm f with
      | error e =>
        rw [hmf] at h
        exact Except.noConfusion h
      | ok c =>
        rw [hmf] at h
        cases hrest : mapRetained tm rest with
        | error e =>
          rw [hrest] at h
          exact Except.noConfusion h
        | ok cols2 =>
          rw [hrest] at h
          injection h with h
          rw [← h] at hkv
          rcases List.mem_cons.mp hkv with h1 | h1
          · exact ⟨c, by rw [h1]⟩
          · exact ih cols2 hrest kv h1

theorem countKey_append {α : Type} (m m2 : List (String × α)) (k : String) :
    countKey (m ++ m2) k = countKey m k + countKey m2 k := by
  simp [countKey, List.countP_append]

theorem countKey_eq_zero {α : Type} {m : List (String × α)} {k : String}
    (h : k ∉ keysOf m) : countKey m k = 0 := by
  simp only [countKey]
  rw [List.countP_eq_zero]
  intro a ha
  simp only [decide_eq_true_eq]
  intro e
  exact h (e ▸ List.mem_map_of_mem (fun kv => kv.1) ha)

theorem countKey_eq_one {α : Type} {m : List (String × α)} {k : String}
    (hnd : (keysOf m).Nodup) (hmem : k ∈ keysOf m) : countKey m k = 1 := by
  induction m with
  | nil => exact absurd hmem (List.not_mem_nil k)
  | cons kv rest ih =>
    rw [show keysOf (kv :: rest) = kv.1 :: keysOf rest from rfl, List.nodup_cons] at hnd
    rcases List.mem_cons.mp hmem with h1 | h1
    · have hz : countKey rest k = 0 := countKey_eq_zero (h1 ▸ hnd.1)
      simp only [countKey] at hz
      simp [countKey, List.countP_cons, hz, h1.symm]
    · have h1x := ih hnd.2 h1
      have hne : ¬ (kv.1 = k) := fun e => hnd.1 (e ▸ h1)
      simp only [countKey] at h1x
      simp [countKey, List.countP_cons, hne, h1x]

theorem keysOf_tableBase (tn : String) (seg : Option String) :
    keysOf (tableBase tn seg) = ["__tablename__", "id", "__mapper_args__"] := by
  unfold tableBase
  by_cases h : truthyStr seg = true
  · rw [if_pos h]
    rfl
  · rw [if_neg h]
    rfl

/-- Schema well-formedness for the table-dict builder: coherent fields,
pairwise-distinct field names, and names that avoid the builder's own
keys (the header keys, the audit keys and the transient
`reference_table_name` slot).  Every schema shipped with the repository
satisfies this. -/
def goodSchema (s : Schema) : Prop :=
  (∀ kf ∈ s, coherent kf.2) ∧
  (s.map (fun kv => kv.1)).Nodup ∧
  (∀ kf ∈ s, kf.1 ∉ (["__tablename__", "id", "__mapper_args__", "created", "deleted",
    "superceded_id", "reference_table_name"] : List String))

instance coherentDec (f : FieldSpec) : Decidable (coherent f) := by
  unfold coherent
  infer_instance

instance goodSchemaDec (s : Schema) : Decidable (goodSchema s) := by
  unfold goodSchema
  infer_instance

theorem create_table_dict_eq (tn : String) (s : Schema) (seg : Option String)
    (tm : PyMeta) (crud : Bool) (hgs : goodSchema s) :
    create_table_dict tn s seg tm crud =
      match mapRetained tm s with
      | .error e => .error e
      | .ok cols =>
        .ok ((tableBase tn seg ++ if crud then crudColumns else []) ++ cols) := by
  obtain ⟨hcoh, hnodup, hkeys⟩ := hgs
  have hfresh : ∀ kf ∈ s,
      kf.1 ∉ keysOf (tableBase tn seg ++ if crud then crudColumns else []) := by
    intro kf hkf hin
    have h7 := hkeys kf hkf
    rw [keysOf_append, keysOf_tableBase] at hin
    cases crud <;> simp_all [crudColumns, keysOf]
  have hrtn : "reference_table_name" ∉
      keysOf (tableBase tn seg ++ if crud then crudColumns else []) := by
    rw [keysOf_append, keysOf_tableBase]
    cases crud <;> decide
  have hnames : ∀ kf ∈ s, kf.1 ≠ "reference_table_name" := by
    intro kf hkf he
    exact hkeys kf hkf (by rw [he]; decide)
  exact processFields_eq tm s _ hcoh hfresh hnodup hrtn hnames

/-- C3: for every table dict built with a (truthy) segmentation source,
the emitted table name is `<tableName>__<segmentationSource>`, the `id`
column is a big-integer primary key with a foreign key to
`<tableName>.id`, the polymorphic identity equals the compound name, and
the mapper args mark the table as concrete.  Field names are assumed not
to collide with the three header keys, which the source would silently
overwrite. -/
theorem C3_segmentation_table_dict (tn : String) (s : Schema) (seg : String)
    (tm : PyMeta) (crud : Bool) (m : Model)
    (hseg : seg ≠ "")
    (hnames : ∀ kf ∈ s, kf.1 ∉ (["__tablename__", "id", "__mapper_args__"] : List String))
    (hok : create_table_dict tn s (some seg) tm crud = .ok m) :
    aGet m "__tablename__" = some (.strE (tn ++ "__" ++ seg)) ∧
    aGet m "id" = some (.colE ⟨.BigIntegerC, some (tn ++ ".id"), true, false, true⟩) ∧
    aGet m "__mapper_args__" = some (.mapperE (tn ++ "__" ++ seg) true) := by
  have htru : truthyStr (some seg) = true := by simp [truthyStr, hseg]
  have hok2 : processFields tm
      (tableBase tn (some seg) ++ if crud then crudColumns else []) s = .ok m := hok
  have hnot : ∀ kk ∈ (["__tablename__", "id", "__mapper_args__"] : List String),
      kk ∉ s.map (fun kv => kv.1) := by
    intro kk hkk hmem
    obtain ⟨kf, hkf, heq⟩ := List.mem_map.mp hmem
    exact hnames kf hkf (heq ▸ hkk)
  refine ⟨?_, ?_, ?_⟩
  · rw [processFields_preserves hok2 (hnot _ (by decide)) (by decide)]
    simp [tableBase, htru, aGet, List.cons_append]
  · rw [processFields_preserves hok2 (hnot _ (by decide)) (by decide)]
    simp [tableBase, htru, aGet, List.cons_append]
  · rw [processFields_preserves hok2 (hnot _ (by decide)) (by decide)]
    simp [tableBase, htru, aGet, List.cons_append]

theorem aGet_some_of_mem_keys {α : Type} {m : List (String × α)} {k : String}
    (h : k ∈ keysOf m) : ∃ v, aGet m k = some v := by
  induction m with
  | nil => exact absurd h (List.not_mem_nil k)
  | cons kv rest ih =>
    by_cases hk : kv.1 = k
    · exact ⟨kv.2, by simp [aGet, hk]⟩
    · have : k ∈ keysOf rest := by
        rcases List.mem_cons.mp h with h1 | h1
        · exact absurd h1.symm hk
        · exact h1
      obtain ⟨v, hv⟩ := ih this
      exact ⟨v, by simp [aGet, hk, hv]⟩

theorem mem_of_aGet {α : Type} {m : List (String × α)} {k : String} {v : α}
    (h : aGet m k = some v) : (k, v) ∈ m := by
  induction m with
  | nil => exact absurd h (by simp [aGet])
  | cons kv rest ih =>
    by_cases hk : kv.1 = k
    · rw [aGet, if_pos hk] at h
      injection h with h
      have hkv : kv = (k, v) := by
        cases kv
        simp_all
      rw [hkv]
      exact List.mem_cons_self _ _
    · rw [aGet, if_neg hk] at h
      exact List.mem_cons_of_mem _ (ih h)

instance exceptDecEq {e a : Type} [DecidableEq e] [DecidableEq a] :
    DecidableEq (Except e a) := fun x y =>
  match x, y with
  | .ok x, .ok y =>
    match decEq x y with
    | isTrue h => isTrue (by rw [h])
    | isFalse h => isFalse (fun he => h (by injection he))
  | .error x, .error y =>
    match decEq x y with
    | isTrue h => isTrue (by rw [h])
    | isFalse h => isFalse (fun he => h (by injection he))
  | .ok _, .error _ => isFalse (fun he => Except.noConfusion he)
  | .error _, .ok _ => isFalse (fun he => Except.noConfusion he)

/-- A one-field example schema used as the concrete input of several
witnesses. -/
def exampleSchema : Schema := [("category", ⟨.StrT, false, false, false, false, "POINTZ"⟩)]

/-- The table dict the builder emits for `exampleSchema` with
segmentation source `seg1` and audit columns, spelled out. -/
def exampleSegDict : Model :=
  [("__tablename__", .strE "t__seg1"),
   ("id", .colE ⟨.BigIntegerC, some "t.id", true, false, true⟩),
   ("__mapper_args__", .mapperE "t__seg1" true),
   ("created", .colE ⟨.DateTimeC, none, false, true, false⟩),
   ("deleted", .colE ⟨.DateTimeC, none, false, true, true⟩),
   ("superceded_id", .colE ⟨.BigIntegerC, none, false, false, true⟩),
   ("category", .colE ⟨.StringC, none, false, false, true⟩)]

theorem C3_witness :
    aGet exampleSegDict "__tablename__" = some (.strE ("t" ++ "__" ++ "seg1")) ∧
    aGet exampleSegDict "id" =
      some (.colE ⟨.BigIntegerC, some ("t" ++ ".id"), true, false, true⟩) ∧
    aGet exampleSegDict "__mapper_args__" = some (.mapperE ("t" ++ "__" ++ "seg1") true) :=
  C3_segmentation_table_dict "t" exampleSchema "seg1" .notDict true exampleSegDict
    (by decide) (by decide) (by decide)

/-- C5 counterexample: with audit columns requested on a concrete build,
the emitted table dict has no `superseded_id` entry — the source spells
the audit key `superceded_id` — so the claim's third audit column name
does not hold on the code. -/
theorem C5_counterexample :
    create_table_dict "t" [] none .notDict true = .ok (tableBase "t" none ++ crudColumns) ∧
    aGet (tableBase "t" none ++ crudColumns) "superseded_id" = none ∧
    aGet (tableBase "t" none ++ crudColumns) "superceded_id" =
      some (.colE ⟨.BigIntegerC, none, false, false, true⟩) := by
  decide

/-- C5 (amended): when audit columns are requested, the emitted table
dict contains exactly three extra audit entries relative to the same
build without them, inserted between the header and the field columns:
`created` (timestamp, indexed, required), `deleted` (timestamp, indexed,
optional) and `superceded_id` (big integer, optional) — the source's
spelling of the column the claim calls `superseded_id`. -/
theorem C5_audit_columns (tn : String) (s : Schema) (seg : Option String)
    (tm : PyMeta) (cols : List (String × Entry)) (hgs : goodSchema s)
    (hcols : mapRetained tm s = .ok cols) :
    create_table_dict tn s seg tm true =
      .ok ((tableBase tn seg ++
        [("created", .colE ⟨.DateTimeC, none, false, true, false⟩),
         ("deleted", .colE ⟨.DateTimeC, none, false, true, true⟩),
         ("superceded_id", .colE ⟨.BigIntegerC, none, false, false, true⟩)]) ++ cols) ∧
    create_table_dict tn s seg tm false = .ok (tableBase tn seg ++ cols) := by
  constructor
  · rw [create_table_dict_eq tn s seg tm true hgs, hcols]
    rfl
  · rw [create_table_dict_eq tn s seg tm false hgs, hcols]
    simp

theorem C5_witness :
    create_table_dict "t" exampleSchema none .notDict true =
      .ok ((tableBase "t" none ++
        [("created", .colE ⟨.DateTimeC, none, false, true, false⟩),
         ("deleted", .colE ⟨.DateTimeC, none, false, true, true⟩),
         ("superceded_id", .colE ⟨.BigIntegerC, none, false, false, true⟩)]) ++
        [("category", .colE ⟨.StringC, none, false, false, true⟩)]) ∧
    create_table_dict "t" exampleSchema none .notDict false =
      .ok (tableBase "t" none ++ [("category", .colE ⟨.StringC, none, false, false, true⟩)]) :=
  C5_audit_columns "t" exampleSchema none .notDict
    [("category", .colE ⟨.StringC, none, false, false, true⟩)] (by decide) (by decide)

theorem goodSchema_fresh_base (tn : String) (seg : Option String) (crud : Bool)
    {s : Schema} (hgs : goodSchema s) :
    ∀ kf ∈ s, kf.1 ∉ keysOf (tableBase tn seg ++ if crud then crudColumns else []) := by
  obtain ⟨-, -, hkeys⟩ := hgs
  intro kf hkf hin
  have h7 := hkeys kf hkf
  rw [keysOf_append, keysOf_tableBase] at hin
  cases crud <;> simp_all [crudColumns, keysOf]

/-- C7: for every field whose metadata sets `drop_column`, no entry under
that field's name appears in the emitted table dict; every field not so
marked contributes exactly one entry under its name, and that entry is a
column declaration. -/
theorem C7_drop_column_omission (tn : String) (s : Schema) (seg : Option String)
    (tm : PyMeta) (crud : Bool) (m : Model) (hgs : goodSchema s)
    (hok : create_table_dict tn s seg tm crud = .ok m) :
    ∀ kf ∈ s,
      (kf.2.drop_column = true → aGet m kf.1 = none) ∧
      (kf.2.drop_column = false →
        countKey m kf.1 = 1 ∧ ∃ c, aGet m kf.1 = some (.colE c)) := by
  rw [create_table_dict_eq tn s seg tm crud hgs] at hok
  cases hmr : mapRetained tm s with
  | error e =>
    rw [hmr] at hok
    exact Except.noConfusion hok
  | ok cols =>
    rw [hmr] at hok
    injection hok with hok
    have hkc := keysOf_mapRetained tm s cols hmr
    obtain ⟨hcoh, hnodup, h7⟩ := hgs
    intro kf hkf
    have hbase := goodSchema_fresh_base tn seg crud ⟨hcoh, hnodup, h7⟩ kf hkf
    constructor
    · intro hd
      have hnc : kf.1 ∉ keysOf cols := by
        rw [hkc]
        intro hmem
        obtain ⟨kg, hkg, heq⟩ := List.mem_map.mp hmem
        have hkgs : kg ∈ s := List.mem_of_mem_filter hkg
        have hpred := List.of_mem_filter hkg
        have hkgkf : kg = kf :=
          List.inj_on_of_nodup_map hnodup hkgs hkf heq
        rw [hkgkf, hd] at hpred
        exact Bool.noConfusion hpred
      rw [← hok]
      apply aGet_eq_none
      rw [keysOf_append]
      intro hmem
      rcases List.mem_append.mp hmem with h1 | h1
      · exact hbase h1
      · exact hnc h1
    · intro hd
      have hmemf : kf ∈ s.filter (fun kv => !kv.2.drop_column) :=
        List.mem_filter.mpr ⟨hkf, by simp [hd]⟩
      have hmemc : kf.1 ∈ keysOf cols := by
        rw [hkc]
        exact List.mem_map_of_mem (fun kv => kv.1) hmemf
      have hndc : (keysOf cols).Nodup := by
        rw [hkc]
        exact hnodup.sublist (List.Sublist.map _ (List.filter_sublist s))
      constructor
      · rw [← hok, countKey_append, countKey_eq_zero hbase,
          countKey_eq_one hndc hmemc]
      · obtain ⟨v, hv⟩ := aGet_some_of_mem_keys hmemc
        obtain ⟨c, hc⟩ := mapRetained_colE tm s cols hmr (kf.1, v) (mem_of_aGet hv)
        refine ⟨c, ?_⟩
        rw [← hok, aGet_append_right _ hbase, hv]
        exact congrArg some hc

theorem C7_witness :
    ((⟨.StrT, false, true, false, false, "POINTZ"⟩ : FieldSpec).drop_column = true →
      aGet [("__tablename__", Entry.strE "t"),
        ("id", .colE ⟨.BigIntegerC, none, true, false, true⟩),
        ("__mapper_args__", .mapperE "t" true),
        ("kept", .colE ⟨.BigIntegerC, none, false, false, true⟩)] "dropped" = none) ∧
    ((⟨.StrT, false, true, false, false, "POINTZ"⟩ : FieldSpec).drop_column = false →
      countKey [("__tablename__", Entry.strE "t"),
        ("id", .colE ⟨.BigIntegerC, none, true, false, true⟩),
        ("__mapper_args__", .mapperE "t" true),
        ("kept", .colE ⟨.BigIntegerC, none, false, false, true⟩)] "dropped" = 1 ∧
      ∃ c, aGet [("__tablename__", Entry.strE "t"),
        ("id", .colE ⟨.BigIntegerC, none, true, false, true⟩),
        ("__mapper_args__", .mapperE "t" true),
        ("kept", .colE ⟨.BigIntegerC, none, false, false, true⟩)] "dropped" =
          some (.colE c)) :=
  C7_drop_column_omission "t"
    [("dropped", ⟨.StrT, false, true, false, false, "POINTZ"⟩),
     ("kept", ⟨.NumericFieldT, false, false, false, false, "POINTZ"⟩)]
    none .notDict false
    [("__tablename__", Entry.strE "t"),
     ("id", .colE ⟨.BigIntegerC, none, true, false, true⟩),
     ("__mapper_args__", .mapperE "t" true),
     ("kept", .colE ⟨.BigIntegerC, none, false, false, true⟩)]
    (by decide) (by decide)
    ("dropped", ⟨.StrT, false, true, false, false, "POINTZ"⟩) (by decide)

theorem make_model_cache_hit {st : ModelStore} {tn : String} {m : Model}
    (hm : aGet st.container tn = some m) (s : Schema) (seg : Option String)
    (tm : PyMeta) (crud : Bool) :
    make_model_from_schema st tn s seg tm crud = (st, .ok (m, false)) := by
  unfold make_model_from_schema
  have hc : contains_model st tn false = true := by
    simp [contains_model, hm]
  rw [if_pos hc]
  simp [get_model, hm]

theorem make_flat_model_cache_hit {st : ModelStore} {tn : String} {m : Model}
    (hm : aGet st.flat_container tn = some m) (s : Schema) (seg : Option String)
    (tm : PyMeta) :
    make_flat_model_from_schema st tn s seg tm = (st, .ok (m, false)) := by
  unfold make_flat_model_from_schema
  have hc : contains_model st tn true = true := by
    simp [contains_model, hm]
  rw [if_pos hc]
  simp [get_model, hm]

theorem make_model_built_cached {st st1 : ModelStore} {tn : String} {s : Schema}
    {seg : Option String} {tm : PyMeta} {crud : Bool} {m : Model} {b : Bool}
    (h : make_model_from_schema st tn s seg tm crud = (st1, .ok (m, b))) :
    aGet st1.container tn = some m := by
  unfold make_model_from_schema at h
  by_cases hc : contains_model st tn false = true
  · rw [if_pos hc] at h
    unfold contains_model at hc
    simp only [Bool.false_eq_true, if_false] at hc
    obtain ⟨m0, hm0⟩ := Option.isSome_iff_exists.mp hc
    rw [show get_model st tn false = aGet st.container tn from rfl, hm0] at h
    injection h with h1 h2
    injection h2 with h2
    injection h2 with h2 h3
    rw [← h1, hm0, h2]
  · rw [if_neg hc] at h
    cases hsp : split_annotation_schema s with
    | error e =>
      rw [hsp] at h
      injection h with h1 h2
      exact Except.noConfusion h2
    | ok p =>
      obtain ⟨ann, segc⟩ := p
      simp only [hsp] at h
      cases hb : (if truthyStr seg = true then
          create_sqlalchemy_model tn segc seg tm crud
        else create_sqlalchemy_model tn ann none tm crud) with
      | error e =>
        simp only [hb] at h
        injection h with h1 h2
        exact Except.noConfusion h2
      | ok model =>
        simp only [hb] at h
        injection h with h1 h2
        injection h2 with h2
        injection h2 with h2 h3
        rw [← h1, ← h2]
        simp [set_model, aGet_aSet_self]

/-- C2: the model registry is idempotent per (table name, kind): a cache
hit in the relevant container (full or flat) returns the stored model
with the builder not invoked (`false` build flag, store unchanged), and
after any successful call a second call with identical arguments returns
exactly the model the first produced, again without building. -/
theorem C2_registry_idempotent (st : ModelStore) (tn : String) (s : Schema)
    (seg : Option String) (tm : PyMeta) (crud : Bool) :
    (∀ m, get_model st tn false = some m →
      make_model_from_schema st tn s seg tm crud = (st, .ok (m, false))) ∧
    (∀ m, get_model st tn true = some m →
      make_flat_model_from_schema st tn s seg tm = (st, .ok (m, false))) ∧
    (∀ st1 m b, make_model_from_schema st tn s seg tm crud = (st1, .ok (m, b)) →
      make_model_from_schema st1 tn s seg tm crud = (st1, .ok (m, false))) ∧
    (∀ st1 m b, make_flat_model_from_schema st tn s seg tm = (st1, .ok (m, b)) →
      make_flat_model_from_schema st1 tn s seg tm = (st1, .ok (m, false))) := by
  refine ⟨?_, ?_, ?_, ?_⟩
  · intro m hm
    exact make_model_cache_hit hm s seg tm crud
  · intro m hm
    exact make_flat_model_cache_hit hm s seg tm
  · intro st1 m b h
    exact make_model_cache_hit (make_model_built_cached h) s seg tm crud
  · intro st1 m b h
    unfold make_flat_model_from_schema at h
    by_cases hc : contains_model st tn true = true
    · rw [if_pos hc] at h
      unfold contains_model at hc
      simp only [if_true] at hc
      obtain ⟨m0, hm0⟩ := Option.isSome_iff_exists.mp hc
      rw [show get_model st tn true = aGet st.flat_container tn from rfl, hm0] at h
      injection h with h1 h2
      injection h2 with h2
      injection h2 with h2 h3
      exact make_flat_model_cache_hit (by rw [← h1, hm0, h2]) s seg tm
    · rw [if_neg hc] at h
      dsimp only at h
      cases hb : create_table_dict tn (create_flattened_schema s) seg tm false with
      | error e =>
        rw [hb] at h
        injection h with h1 h2
        exact Except.noConfusion h2
      | ok model =>
        rw [hb] at h
        injection h with h1 h2
        injection h2 with h2
        injection h2 with h2 h3
        refine make_flat_model_cache_hit ?_ s seg tm
        rw [← h1, ← h2]
        simp [set_model, aGet_aSet_self]

/-- The full model the builder produces for `exampleSchema` under table
name `t` with audit columns and no segmentation source. -/
def exampleFullModel : Model :=
  [("__tablename__", .strE "t"),
   ("id", .colE ⟨.BigIntegerC, none, true, false, true⟩),
   ("__mapper_args__", .mapperE "t" true),
   ("created", .colE ⟨.DateTimeC, none, false, true, false⟩),
   ("deleted", .colE ⟨.DateTimeC, none, false, true, true⟩),
   ("superceded_id", .colE ⟨.BigIntegerC, none, false, false, true⟩),
   ("category", .colE ⟨.StringC, none, false, false, true⟩)]

/-- The flat model the builder produces for `exampleSchema` under table
name `t` (flat builds never take audit columns). -/
def exampleFlatModel : Model :=
  [("__tablename__", .strE "t"),
   ("id", .colE ⟨.BigIntegerC, none, true, false, true⟩),
   ("__mapper_args__", .mapperE "t" true),
   ("category", .colE ⟨.StringC, none, false, false, true⟩)]

theorem C2_witness :
    make_model_from_schema ⟨[("t", exampleFullModel)], []⟩ "t" exampleSchema none
        .notDict true =
      (⟨[("t", exampleFullModel)], []⟩, .ok (exampleFullModel, false)) ∧
    make_flat_model_from_schema ⟨[], [("t", exampleFlatModel)]⟩ "t" exampleSchema none
        .notDict =
      (⟨[], [("t", exampleFlatModel)]⟩, .ok (exampleFlatModel, false)) :=
  ⟨(C2_registry_idempotent ⟨[], []⟩ "t" exampleSchema none .notDict true).2.2.1
      ⟨[("t", exampleFullModel)], []⟩ exampleFullModel true (by decide),
   (C2_registry_idempotent ⟨[], []⟩ "t" exampleSchema none .notDict true).2.2.2
      ⟨[], [("t", exampleFlatModel)]⟩ exampleFlatModel true (by decide)⟩

/-- C8: the full-model cache is keyed by the table name alone — once a
model is cached under a table name, every later `make_model_from_schema`
or `make_sqlalchemy_model` call with that table name returns the cached
model unchanged and skips the builder, whatever schema, segmentation
source, table metadata or crud-column arguments it passes (the differing
arguments are silently ignored). -/
theorem C8_cache_keyed_by_name_only (st : ModelStore) (tn : String) (m : Model)
    (hm : aGet st.container tn = some m) :
    (∀ (s : Schema) (seg : Option String) (tm : PyMeta) (crud : Bool),
      make_model_from_schema st tn s seg tm crud = (st, .ok (m, false))) ∧
    (∀ (gs : String → Except BuildError Schema) (stype : String) (s : Schema)
        (seg : Option String) (tm : PyMeta) (crud : Bool),
      gs stype = .ok s →
      make_sqlalchemy_model gs st tn stype seg tm crud = (st, .ok (m, false))) := by
  constructor
  · intro s seg tm crud
    exact make_model_cache_hit hm s seg tm crud
  · intro gs stype s seg tm crud hgs
    unfold make_sqlalchemy_model
    rw [hgs]
    exact make_model_cache_hit hm s seg tm crud

theorem C8_witness :
    make_model_from_schema ⟨[("t", exampleFullModel)], []⟩ "t" [] (some "other")
        (.dict none) false =
      (⟨[("t", exampleFullModel)], []⟩, .ok (exampleFullModel, false)) ∧
    make_sqlalchemy_model (fun _ => .ok []) ⟨[("t", exampleFullModel)], []⟩ "t"
        "sometype" none .notDict true =
      (⟨[("t", exampleFullModel)], []⟩, .ok (exampleFullModel, false)) :=
  ⟨(C8_cache_keyed_by_name_only ⟨[("t", exampleFullModel)], []⟩ "t" exampleFullModel
      (by decide)).1 [] (some "other") (.dict none) false,
   (C8_cache_keyed_by_name_only ⟨[("t", exampleFullModel)], []⟩ "t" exampleFullModel
      (by decide)).2 (fun _ => .ok []) "sometype" [] none .notDict true rfl⟩

/-- C6: when one or more schema names in the list are unknown,
`validate_types` raises `UnknownAnnotationTypeException` whose message
enumerates every unknown schema name in the list (in order, with
duplicates), not just the first one encountered. -/
theorem C6_unknown_types_enumerated (all_types : List String)
    (pairs : List (String × String))
    (hbad : ∃ p ∈ pairs, p.1 ∉ all_types) :
    validate_types all_types pairs =
      .error (.UnknownAnnotationTypeException
        (pyListRepr ((pairs.filter (fun p => !decide (p.1 ∈ all_types))).map
          (fun p => p.1)) ++ " are invalid types")) ∧
    (∀ p ∈ pairs, p.1 ∉ all_types →
      p.1 ∈ (pairs.filter (fun p => !decide (p.1 ∈ all_types))).map (fun p => p.1)) ∧
    (∀ nm ∈ (pairs.filter (fun p => !decide (p.1 ∈ all_types))).map (fun p => p.1),
      nm ∉ all_types ∧ ∃ t, (nm, t) ∈ pairs) := by
  have hall : ¬ (pairs.all (fun p => decide (p.1 ∈ all_types)) = true) := by
    obtain ⟨p, hp, hnp⟩ := hbad
    intro hall
    exact hnp (of_decide_eq_true (List.all_eq_true.mp hall p hp))
  refine ⟨?_, ?_, ?_⟩
  · unfold validate_types
    rw [if_neg hall]
  · intro p hp hnp
    exact List.mem_map_of_mem _ (List.mem_filter.mpr ⟨hp, by simp [hnp]⟩)
  · intro nm hmem
    obtain ⟨p, hpf, heq⟩ := List.mem_map.mp hmem
    have hps : p ∈ pairs := List.mem_of_mem_filter hpf
    have hpred := List.of_mem_filter hpf
    refine ⟨?_, p.2, ?_⟩
    · intro hin
      have hdec : decide (p.1 ∈ all_types) = true := decide_eq_true (by rw [heq]; exact hin)
      rw [hdec] at hpred
      exact Bool.noConfusion hpred
    · rw [← heq, Prod.mk.eta]
      exact hps

theorem C6_witness :
    validate_types ["known"] [("known", "t1"), ("bad1", "t2"), ("bad2", "t3")] =
      .error (.UnknownAnnotationTypeException
        "[\x27bad1\x27, \x27bad2\x27] are invalid types") :=
  (C6_unknown_types_enumerated ["known"]
    [("known", "t1"), ("bad1", "t2"), ("bad2", "t3")]
    ⟨("bad1", "t2"), by decide, by decide⟩).1

theorem aPop_eq_none {α : Type} {m : List (String × α)} {k : String}
    (h : k ∉ keysOf m) : aPop m k = none := by
  induction m with
  | nil => rfl
  | cons kv rest ih =>
    simp only [keysOf, List.map_cons, List.mem_cons, not_or] at h
    have hne : kv.1 ≠ k := fun e => h.1 e.symm
    rw [aPop, if_neg hne, ih h.2]

theorem rtn_not_in_base (tn : String) (seg : Option String) (crud : Bool) :
    "reference_table_name" ∉ keysOf (tableBase tn seg ++ if crud then crudColumns else []) := by
  rw [keysOf_append, keysOf_tableBase]
  cases crud <;> decide

/-- C9: mismatched reference typing.  (a) A retained field carrying
REFERENCE metadata whose class is mapped but is not `ReferenceTableField`
leaves the transient `reference_table_name` entry in the emitted dict as
a raw string — `add_column` never pops it — so the successful build's
dict maps `reference_table_name` to the raw reference-table string
rather than to a column.  (b) A `ReferenceTableField` whose metadata does
not mark it REFERENCE makes `add_column` raise the uncaught `KeyError`
from popping the absent `reference_table_name`, aborting the build. -/
theorem C9_reference_mismatch (tn k r : String) (seg : Option String) (crud : Bool)
    (f g : FieldSpec) (ct : ColType) (tm : PyMeta)
    (hk : k ≠ "reference_table_name")
    (hfd : f.drop_column = false) (hfr : f.is_reference = true)
    (hft : f.ftype ≠ .ReferenceTableFieldT) (hfm : field_column_map f.ftype = some ct)
    (hgd : g.drop_column = false) (hgr : g.is_reference = false)
    (hgt : g.ftype = .ReferenceTableFieldT) :
    (create_table_dict tn [(k, f)] seg (.dict (some r)) crud).toOption.map
      (fun m => aGet m "reference_table_name") = some (some (.strE r)) ∧
    create_table_dict tn [(k, g)] seg tm crud =
      .error (.KeyErrorE "reference_table_name") := by
  constructor
  · have hv : validate_metadata
        (tableBase tn seg ++ if crud then crudColumns else []) f (.dict (some r)) =
        .ok (aSet (tableBase tn seg ++ if crud then crudColumns else [])
          "reference_table_name" (.strE r)) := by
      unfold validate_metadata
      rw [hfr]
      rfl
    have ha : ∃ col, add_column
        (aSet (tableBase tn seg ++ if crud then crudColumns else [])
          "reference_table_name" (.strE r)) k f =
        .ok (aSet (aSet (tableBase tn seg ++ if crud then crudColumns else [])
          "reference_table_name" (.strE r)) k (.colE col)) := by
      unfold add_column
      simp only [hfm]
      by_cases hpg : f.ftype = .PostGISFieldT
      · rw [if_pos hpg]
        exact ⟨_, rfl⟩
      · rw [if_neg hpg, if_neg hft]
        exact ⟨_, rfl⟩
    obtain ⟨col, ha⟩ := ha
    have hrun : create_table_dict tn [(k, f)] seg (.dict (some r)) crud =
        .ok (aSet (aSet (tableBase tn seg ++ if crud then crudColumns else [])
          "reference_table_name" (.strE r)) k (.colE col)) := by
      show processFields (.dict (some r))
        (tableBase tn seg ++ if crud then crudColumns else []) [(k, f)] = _
      unfold processFields processField
      simp only [hfd, Bool.false_eq_true, if_false, hv, ha]
      rfl
    rw [hrun]
    simp only [Except.toOption, Option.map_some']
    rw [aGet_aSet_ne _ _ (Ne.symm hk), aGet_aSet_self]
  · have hv : validate_metadata
        (tableBase tn seg ++ if crud then crudColumns else []) g tm =
        .ok (tableBase tn seg ++ if crud then crudColumns else []) := by
      unfold validate_metadata
      rw [hgr]
      rfl
    have ha : add_column (tableBase tn seg ++ if crud then crudColumns else []) k g =
        .error (.KeyErrorE "reference_table_name") := by
      unfold add_column
      rw [hgt]
      simp only [field_column_map]
      rw [if_neg (by decide), if_pos trivial,
        aPop_eq_none (rtn_not_in_base tn seg crud)]
    show processFields tm
      (tableBase tn seg ++ if crud then crudColumns else []) [(k, g)] = _
    unfold processFields processField
    simp only [hgd, Bool.false_eq_true, if_false, hv, ha]

theorem C9_witness :
    (create_table_dict "t"
      [("weird", ⟨.StrT, false, false, false, true, "POINTZ"⟩)] none
      (.dict (some "base")) false).toOption.map
        (fun m => aGet m "reference_table_name") = some (some (.strE "base")) ∧
    create_table_dict "t"
      [("tgt", ⟨.ReferenceTableFieldT, false, false, false, false, "POINTZ"⟩)] none
      .notDict false =
      .error (.KeyErrorE "reference_table_name") :=
  C9_reference_mismatch "t" "weird" "base" none false
    ⟨.StrT, false, false, false, true, "POINTZ"⟩
    ⟨.ReferenceTableFieldT, false, false, false, false, "POINTZ"⟩
    .StringC .notDict (by decide) (by decide) (by decide) (by decide) (by decide)
    (by decide) (by decide) (by decide)

/-- C10: for every non-empty list of valid (schema name, table name)
pairs, calling `make_dataset_models` with `metadata_dict` left at its
`None` default fails with the uncaught `AttributeError` from
`metadata_dict.get` on the first pair, before any model is built — the
registry comes back unchanged — even when no table in the list needs
reference metadata. -/
theorem C10_none_metadata_attribute_error
    (get_schema : String → Except BuildError Schema) (all_types : List String)
    (Contact : Schema) (st : ModelStore) (av : String)
    (pairs : List (String × String)) (seg : Option String) (contacts : Bool)
    (crud : Bool)
    (hne : pairs ≠ [])
    (hvalid : ∀ p ∈ pairs, p.1 ∈ all_types) :
    make_dataset_models get_schema all_types Contact st av pairs seg contacts
      none crud =
      (st, .error (.AttributeErrorE "NoneType object has no attribute get")) := by
  unfold make_dataset_models
  have hall : pairs.all (fun p => decide (p.1 ∈ all_types)) = true :=
    List.all_eq_true.mpr (fun p hp => decide_eq_true (hvalid p hp))
  have hv : validate_types all_types pairs = .ok () := by
    unfold validate_types
    rw [if_pos hall]
  rw [hv]
  cases pairs with
  | nil => exact absurd rfl hne
  | cons p rest =>
    obtain ⟨sn, tn⟩ := p
    rfl

theorem C10_witness :
    make_dataset_models (fun _ => .ok exampleSchema) ["known"] [] ⟨[], []⟩ "vol"
      [("known", "t1")] none false none true =
      (⟨[], []⟩, .error (.AttributeErrorE "NoneType object has no attribute get")) :=
  C10_none_metadata_attribute_error (fun _ => .ok exampleSchema) ["known"] []
    ⟨[], []⟩ "vol" [("known", "t1")] none false true (by decide) (by decide)

theorem split_ok_of_mapped {s : Schema}
    (hmap : ∀ kf ∈ s, field_column_map kf.2.ftype ≠ none) :
    split_annotation_schema s =
      .ok (s.filter (fun kv => !kv.2.segmentation_field),
           s.filter (fun kv => kv.2.segmentation_field)) := by
  unfold split_annotation_schema create_flattened_schema
  rw [if_neg]
  intro hany
  obtain ⟨kf, hkf, hn⟩ := List.any_eq_true.mp hany
  have hm := hmap kf hkf
  rw [of_decide_eq_true hn] at hm
  exact hm rfl

theorem goodSchema_filter (p : String × FieldSpec → Bool) {s : Schema}
    (hgs : goodSchema s) : goodSchema (s.filter p) := by
  obtain ⟨hcoh, hnodup, hkeys⟩ := hgs
  refine ⟨fun kf hkf => hcoh kf (List.mem_of_mem_filter hkf), ?_,
    fun kf hkf => hkeys kf (List.mem_of_mem_filter hkf)⟩
  exact hnodup.sublist (List.Sublist.map _ (List.filter_sublist s))

theorem make_model_build (st : ModelStore) (tn : String) (s : Schema)
    (seg : Option String) (tm : PyMeta) (crud : Bool)
    (hnc : contains_model st tn false = false)
    (hmap : ∀ kf ∈ s, field_column_map kf.2.ftype ≠ none) :
    make_model_from_schema st tn s seg tm crud =
      match (if truthyStr seg then
          create_table_dict tn (s.filter (fun kv => kv.2.segmentation_field)) seg tm crud
        else
          create_table_dict tn (s.filter (fun kv => !kv.2.segmentation_field)) none tm crud)
        with
      | .error e => (st, .error e)
      | .ok M => (set_model st tn M false, .ok (M, true)) := by
  unfold make_model_from_schema
  rw [if_neg (by rw [hnc]; simp), split_ok_of_mapped hmap]
  rfl

theorem mapRetained_bad_metadata (tm : PyMeta)
    (htm : tm = .notDict ∨ tm = .dict none) :
    ∀ (fields : Schema),
      (∀ kf ∈ fields, coherent kf.2) →
      (∀ kf ∈ fields, field_column_map kf.2.ftype ≠ none) →
      (∃ kf ∈ fields, kf.2.drop_column = false ∧ kf.2.is_reference = true) →
      ∃ msg, mapRetained tm fields = .error (.InvalidTableMetaDataException msg) := by
  intro fields
  induction fields with
  | nil =>
    intro _ _ hex
    obtain ⟨kf, hkf, -⟩ := hex
    exact absurd hkf (List.not_mem_nil kf)
  | cons kf rest ih =>
    obtain ⟨k, f⟩ := kf
    intro hcoh hmap hex
    have hmr : mapRetained tm ((k, f) :: rest) =
        if f.drop_column then mapRetained tm rest
        else
          match mapField tm f with
          | .error e => .error e
          | .ok c =>
            match mapRetained tm rest with
            | .error e => .error e
            | .ok cols => .ok ((k, Entry.colE c) :: cols) := rfl
    have hcoh2 : ∀ kg ∈ rest, coherent kg.2 :=
      fun kg hk => hcoh kg (List.mem_cons_of_mem _ hk)
    have hmap2 : ∀ kg ∈ rest, field_column_map kg.2.ftype ≠ none :=
      fun kg hk => hmap kg (List.mem_cons_of_mem _ hk)
    by_cases hdrop : f.drop_column = true
    · rw [hmr, if_pos hdrop]
      apply ih hcoh2 hmap2
      obtain ⟨kg, hkg, hgd, hgr⟩ := hex
      rcases List.mem_cons.mp hkg with h1 | h1
      · rw [h1] at hgd
        rw [hgd] at hdrop
        exact Bool.noConfusion hdrop
      · exact ⟨kg, h1, hgd, hgr⟩
    · rw [hmr, if_neg hdrop]
      by_cases hir : f.is_reference = true
      · have hmf : ∃ msg, mapField tm f = .error (.InvalidTableMetaDataException msg) := by
          unfold mapField
          rw [hir]
          rcases htm with h | h <;> rw [h] <;> exact ⟨_, rfl⟩
        obtain ⟨msg, hmf⟩ := hmf
        refine ⟨msg, ?_⟩
        rw [hmf]
      · have hif : f.is_reference = false := by
          revert hir
          cases f.is_reference <;> simp
        have hmf : ∃ c, mapField tm f = .ok c := by
          unfold mapField
          rw [hif]
          cases hm : field_column_map f.ftype with
          | none => exact absurd hm (hmap (k, f) (List.mem_cons_self _ _))
          | some ct =>
            simp only
            by_cases hpg : f.ftype = .PostGISFieldT
            · rw [if_pos hpg]
              exact ⟨_, rfl⟩
            · rw [if_neg hpg]
              exact ⟨_, rfl⟩
        obtain ⟨c, hmf⟩ := hmf
        have hex2 : ∃ kg ∈ rest, kg.2.drop_column = false ∧ kg.2.is_reference = true := by
          obtain ⟨kg, hkg, hgd, hgr⟩ := hex
          rcases List.mem_cons.mp hkg with h1 | h1
          · rw [h1] at hgr
            rw [hgr] at hir
            exact absurd rfl hir
          · exact ⟨kg, h1, hgd, hgr⟩
        obtain ⟨msg, hrest⟩ := ih hcoh2 hmap2 hex2
        refine ⟨msg, ?_⟩
        rw [hmf, hrest]

/-- C4 counterexample: a schema containing a REFERENCE-marked field that
is a segmentation field, compiled without a segmentation source and with
table metadata left at `None`: compilation succeeds and a model is cached
under the table name, where the claim requires an
`InvalidTableMetaDataException` and an unchanged cache for every schema
containing a REFERENCE-marked field with such metadata. -/
theorem C4_counterexample :
    make_model_from_schema ⟨[], []⟩ "t"
      [("category", ⟨.StrT, false, false, false, false, "POINTZ"⟩),
       ("supervoxel_id", ⟨.ReferenceTableFieldT, true, false, false, true, "POINTZ"⟩)]
      none .notDict false =
      (⟨[("t", [("__tablename__", .strE "t"),
          ("id", .colE ⟨.BigIntegerC, none, true, false, true⟩),
          ("__mapper_args__", .mapperE "t" true),
          ("category", .colE ⟨.StringC, none, false, false, true⟩)])], []⟩,
        .ok ([("__tablename__", .strE "t"),
          ("id", .colE ⟨.BigIntegerC, none, true, false, true⟩),
          ("__mapper_args__", .mapperE "t" true),
          ("category", .colE ⟨.StringC, none, false, false, true⟩)], true)) := by
  decide

/-- C4 (amended): if the half of the schema actually compiled (the
segmentation bucket when the segmentation source is truthy, the
annotation bucket otherwise) contains a retained REFERENCE-marked field,
the table name is not already cached, and every field type is supported,
then compiling with table metadata that is not a dict (including the
`None` default) or that lacks `reference_table` raises
`InvalidTableMetaDataException` and the registry is returned unchanged —
no model is stored under the table name. -/
theorem C4_missing_reference_metadata (st : ModelStore) (tn : String) (s : Schema)
    (seg : Option String) (tm : PyMeta) (crud : Bool)
    (hnc : contains_model st tn false = false)
    (htm : tm = .notDict ∨ tm = .dict none)
    (hgs : goodSchema s)
    (hmap : ∀ kf ∈ s, field_column_map kf.2.ftype ≠ none)
    (href : ∃ kf ∈ (if truthyStr seg then s.filter (fun kv => kv.2.segmentation_field)
        else s.filter (fun kv => !kv.2.segmentation_field)),
      kf.2.drop_column = false ∧ kf.2.is_reference = true) :
    ∃ msg, make_model_from_schema st tn s seg tm crud =
      (st, .error (.InvalidTableMetaDataException msg)) := by
  rw [make_model_build st tn s seg tm crud hnc hmap]
  obtain ⟨hcoh, hnodup, hkeys⟩ := hgs
  by_cases htru : truthyStr seg = true
  · rw [if_pos htru] at href ⊢
    have hgf := goodSchema_filter (fun kv => kv.2.segmentation_field)
      ⟨hcoh, hnodup, hkeys⟩
    obtain ⟨msg, hmr⟩ := mapRetained_bad_metadata tm htm _
      (fun kf hkf => hcoh kf (List.mem_of_mem_filter hkf))
      (fun kf hkf => hmap kf (List.mem_of_mem_filter hkf)) href
    refine ⟨msg, ?_⟩
    rw [create_table_dict_eq _ _ _ _ _ hgf, hmr]
  · rw [if_neg htru] at href ⊢
    have hgf := goodSchema_filter (fun kv => !kv.2.segmentation_field)
      ⟨hcoh, hnodup, hkeys⟩
    obtain ⟨msg, hmr⟩ := mapRetained_bad_metadata tm htm _
      (fun kf hkf => hcoh kf (List.mem_of_mem_filter hkf))
      (fun kf hkf => hmap kf (List.mem_of_mem_filter hkf)) href
    refine ⟨msg, ?_⟩
    rw [create_table_dict_eq _ _ _ _ _ hgf, hmr]

theorem C4_witness :
    ∃ msg, make_model_from_schema ⟨[], []⟩ "t"
      [("target_id", ⟨.ReferenceTableFieldT, false, false, false, true, "POINTZ"⟩)]
      none .notDict true =
      (⟨[], []⟩, .error (.InvalidTableMetaDataException msg)) :=
  C4_missing_reference_metadata ⟨[], []⟩ "t"
    [("target_id", ⟨.ReferenceTableFieldT, false, false, false, true, "POINTZ"⟩)]
    none .notDict true (by decide) (Or.inl rfl) (by decide) (by decide) (by decide)

theorem aGet_append_left {α : Type} {m : List (String × α)} (m2 : List (String × α))
    {k : String} {v : α} (h : aGet m k = some v) : aGet (m ++ m2) k = some v := by
  induction m with
  | nil => exact absurd h (by simp [aGet])
  | cons kv rest ih =>
    by_cases hk : kv.1 = k
    · rw [aGet, if_pos hk] at h
      rw [List.cons_append, aGet, if_pos hk]
      exact h
    · rw [aGet, if_neg hk] at h
      rw [List.cons_append, aGet, if_neg hk]
      exact ih h

theorem mapRetained_ok (r : String) :
    ∀ (fields : Schema),
      (∀ kf ∈ fields, coherent kf.2) →
      (∀ kf ∈ fields, field_column_map kf.2.ftype ≠ none) →
      ∃ cols, mapRetained (.dict (some r)) fields = .ok cols := by
  intro fields
  induction fields with
  | nil =>
    intro _ _
    exact ⟨[], rfl⟩
  | cons kf rest ih =>
    obtain ⟨k, f⟩ := kf
    intro hcoh hmap
    obtain ⟨cols, hrest⟩ := ih
      (fun kg hk => hcoh kg (List.mem_cons_of_mem _ hk))
      (fun kg hk => hmap kg (List.mem_cons_of_mem _ hk))
    have hmr : mapRetained (.dict (some r)) ((k, f) :: rest) =
        if f.drop_column then mapRetained (.dict (some r)) rest
        else
          match mapField (.dict (some r)) f with
          | .error e => .error e
          | .ok c =>
            match mapRetained (.dict (some r)) rest with
            | .error e => .error e
            | .ok cols => .ok ((k, Entry.colE c) :: cols) := rfl
    by_cases hdrop : f.drop_column = true
    · exact ⟨cols, by rw [hmr, if_pos hdrop, hrest]⟩
    · have hmf : ∃ c, mapField (.dict (some r)) f = .ok c := by
        unfold mapField
        by_cases hir : f.is_reference = true
        · rw [hir]
          exact ⟨_, rfl⟩
        · have hif : f.is_reference = false := by
            revert hir
            cases f.is_reference <;> simp
          rw [hif]
          cases hm : field_column_map f.ftype with
          | none => exact absurd hm (hmap (k, f) (List.mem_cons_self _ _))
          | some ct =>
            simp only
            by_cases hpg : f.ftype = .PostGISFieldT
            · rw [if_pos hpg]
              exact ⟨_, rfl⟩
            · rw [if_neg hpg]
              exact ⟨_, rfl⟩
      obtain ⟨c, hmf⟩ := hmf
      exact ⟨(k, .colE c) :: cols, by rw [hmr, if_neg hdrop, hmf, hrest]⟩

theorem mapRetained_lookup (tm : PyMeta) :
    ∀ {fields : Schema} {cols : List (String × Entry)},
      mapRetained tm fields = .ok cols →
      (fields.map (fun kv => kv.1)).Nodup →
      ∀ kf ∈ fields, kf.2.drop_column = false →
        ∃ c, mapField tm kf.2 = .ok c ∧ aGet cols kf.1 = some (.colE c) := by
  intro fields
  induction fields with
  | nil =>
    intro cols _ _ kf hkf
    exact absurd hkf (List.not_mem_nil kf)
  | cons hd rest ih =>
    obtain ⟨k, f⟩ := hd
    intro cols h hnodup kf hkf hkd
    rw [List.map_cons, List.nodup_cons] at hnodup
    have hmr : mapRetained tm ((k, f) :: rest) =
        if f.drop_column then mapRetained tm rest
        else
          match mapField tm f with
          | .error e => .error e
          | .ok c =>
            match mapRetained tm rest with
            | .error e => .error e
            | .ok cols => .ok ((k, Entry.colE c) :: cols) := rfl
    rw [hmr] at h
    by_cases hdrop : f.drop_column = true
    · rw [if_pos hdrop] at h
      rcases List.mem_cons.mp hkf with h1 | h1
      · rw [h1] at hkd
        rw [hkd] at hdrop
        exact Bool.noConfusion hdrop
      · exact ih h hnodup.2 kf h1 hkd
    · rw [if_neg hdrop] at h
      cases hmf : mapField tm f with
      | error e =>
        rw [hmf] at h
        exact Except.noConfusion h
      | ok c =>
        simp only [hmf] at h
        cases hrest : mapRetained tm rest with
        | error e =>
          rw [hrest] at h
          exact Except.noConfusion h
        | ok cols2 =>
          simp only [hrest] at h
          injection h with h
          rcases List.mem_cons.mp hkf with h1 | h1
          · refine ⟨c, ?_, ?_⟩
            · rw [h1]
              exact hmf
            · rw [h1, ← h]
              simp [aGet]
          · have hne : kf.1 ≠ k := by
              intro he
              exact hnodup.1 (he ▸ List.mem_map_of_mem (fun kv => kv.1) h1)
            obtain ⟨c2, hc2, ha2⟩ := ih hrest hnodup.2 kf h1 hkd
            refine ⟨c2, hc2, ?_⟩
            rw [← h, aGet, if_neg (fun e => hne e.symm)]
            exact ha2

/-- C1 (amended): compiling with a truthy segmentation source produces
only the segmentation table: the one model built and cached is named
`<T>__<seg>`, its `id` is a big-integer primary key with a foreign key to
`<T>.id`, it contains none of the annotation-bucket fields, and each
retained REFERENCE-marked segmentation field becomes a big-integer
foreign key to `<reference_table>.id`.  The base table — the annotation
fields without the segmentation field — is produced only by a separate
compile without a segmentation source (here under a second table name,
since the cache is keyed by table name alone). -/
theorem C1_segmentation_split (st : ModelStore) (tn tn2 : String) (s : Schema)
    (seg r : String) (crud : Bool)
    (hseg : seg ≠ "")
    (hnc : contains_model st tn false = false)
    (hnc2 : contains_model st tn2 false = false)
    (hgs : goodSchema s)
    (hmap : ∀ kf ∈ s, field_column_map kf.2.ftype ≠ none) :
    (∃ M, make_model_from_schema st tn s (some seg) (.dict (some r)) crud =
        (set_model st tn M false, .ok (M, true)) ∧
      aGet M "__tablename__" = some (.strE (tn ++ "__" ++ seg)) ∧
      aGet M "id" = some (.colE ⟨.BigIntegerC, some (tn ++ ".id"), true, false, true⟩) ∧
      aGet M "__mapper_args__" = some (.mapperE (tn ++ "__" ++ seg) true) ∧
      (∀ kf ∈ s, kf.2.segmentation_field = false → aGet M kf.1 = none) ∧
      (∀ kf ∈ s, kf.2.segmentation_field = true → kf.2.drop_column = false →
        kf.2.is_reference = true →
        aGet M kf.1 =
          some (.colE ⟨.BigIntegerC, some (r ++ ".id"), false, kf.2.has_index, true⟩))) ∧
    (∃ M2, make_model_from_schema st tn2 s none (.dict (some r)) crud =
        (set_model st tn2 M2 false, .ok (M2, true)) ∧
      aGet M2 "__tablename__" = some (.strE tn2) ∧
      (∀ kf ∈ s, kf.2.segmentation_field = true → aGet M2 kf.1 = none) ∧
      (∀ kf ∈ s, kf.2.segmentation_field = false → kf.2.drop_column = false →
        ∃ c, aGet M2 kf.1 = some (.colE c))) := by
  have htru : truthyStr (some seg) = true := by simp [truthyStr, hseg]
  obtain ⟨hcoh, hnodup, hkeys⟩ := hgs
  constructor
  · have hgf := goodSchema_filter (fun kv => kv.2.segmentation_field) ⟨hcoh, hnodup, hkeys⟩
    obtain ⟨cols, hmr⟩ := mapRetained_ok r (s.filter (fun kv => kv.2.segmentation_field))
      hgf.1 (fun kf hkf => hmap kf (List.mem_of_mem_filter hkf))
    have hctd : create_table_dict tn (s.filter (fun kv => kv.2.segmentation_field))
        (some seg) (.dict (some r)) crud =
        .ok ((tableBase tn (some seg) ++ if crud then crudColumns else []) ++ cols) := by
      rw [create_table_dict_eq _ _ _ _ _ hgf, hmr]
    refine ⟨(tableBase tn (some seg) ++ if crud then crudColumns else []) ++ cols,
      ?_, ?_, ?_, ?_, ?_, ?_⟩
    · rw [make_model_build st tn s (some seg) (.dict (some r)) crud hnc hmap,
        if_pos htru, hctd]
    · exact aGet_append_left cols (aGet_append_left _
        (by simp [tableBase, htru, aGet]))
    · exact aGet_append_left cols (aGet_append_left _
        (by simp [tableBase, htru, aGet]))
    · exact aGet_append_left cols (aGet_append_left _
        (by simp [tableBase, htru, aGet]))
    · intro kf hkf hseg0
      apply aGet_eq_none
      rw [keysOf_append]
      intro hmem
      rcases List.mem_append.mp hmem with hA | hB
      · exact goodSchema_fresh_base tn (some seg) crud ⟨hcoh, hnodup, hkeys⟩ kf hkf hA
      · rw [keysOf_mapRetained _ _ _ hmr] at hB
        obtain ⟨kg, hkg, heq⟩ := List.mem_map.mp hB
        have hkg1 : kg ∈ s.filter (fun kv => kv.2.segmentation_field) :=
          List.mem_of_mem_filter hkg
        have hsegkg := List.of_mem_filter hkg1
        have hkgs : kg ∈ s := List.mem_of_mem_filter hkg1
        have : kg = kf := List.inj_on_of_nodup_map hnodup hkgs hkf heq
        rw [this, hseg0] at hsegkg
        exact Bool.noConfusion hsegkg
    · intro kf hkf hsegt hkd hkr
      have hkmem : kf ∈ s.filter (fun kv => kv.2.segmentation_field) :=
        List.mem_filter.mpr ⟨hkf, hsegt⟩
      obtain ⟨c, hcf, haf⟩ := mapRetained_lookup _ hmr hgf.2.1 kf hkmem hkd
      have hbase : kf.1 ∉ keysOf (tableBase tn (some seg) ++ if crud then crudColumns else []) :=
        goodSchema_fresh_base tn (some seg) crud ⟨hcoh, hnodup, hkeys⟩ kf hkf
      have hc : c = ⟨.BigIntegerC, some (r ++ ".id"), false, kf.2.has_index, true⟩ := by
        unfold mapField at hcf
        rw [hkr, if_pos rfl] at hcf
        injection hcf with hcf
        exact hcf.symm
      rw [aGet_append_right _ hbase, haf, hc]
  · have hgf := goodSchema_filter (fun kv => !kv.2.segmentation_field) ⟨hcoh, hnodup, hkeys⟩
    obtain ⟨cols, hmr⟩ := mapRetained_ok r (s.filter (fun kv => !kv.2.segmentation_field))
      hgf.1 (fun kf hkf => hmap kf (List.mem_of_mem_filter hkf))
    have hctd : create_table_dict tn2 (s.filter (fun kv => !kv.2.segmentation_field))
        none (.dict (some r)) crud =
        .ok ((tableBase tn2 none ++ if crud then crudColumns else []) ++ cols) := by
      rw [create_table_dict_eq _ _ _ _ _ hgf, hmr]
    refine ⟨(tableBase tn2 none ++ if crud then crudColumns else []) ++ cols,
      ?_, ?_, ?_, ?_⟩
    · rw [make_model_build st tn2 s none (.dict (some r)) crud hnc2 hmap,
        if_neg (by decide), hctd]
    · exact aGet_append_left cols (aGet_append_left _
        (by simp [tableBase, truthyStr, aGet]))
    · intro kf hkf hsegt
      apply aGet_eq_none
      rw [keysOf_append]
      intro hmem
      rcases List.mem_append.mp hmem with hA | hB
      · exact goodSchema_fresh_base tn2 none crud ⟨hcoh, hnodup, hkeys⟩ kf hkf hA
      · rw [keysOf_mapRetained _ _ _ hmr] at hB
        obtain ⟨kg, hkg, heq⟩ := List.mem_map.mp hB
        have hkg1 : kg ∈ s.filter (fun kv => !kv.2.segmentation_field) :=
          List.mem_of_mem_filter hkg
        have hsegkg := List.of_mem_filter hkg1
        have hkgs : kg ∈ s := List.mem_of_mem_filter hkg1
        have : kg = kf := List.inj_on_of_nodup_map hnodup hkgs hkf heq
        rw [this, hsegt] at hsegkg
        exact Bool.noConfusion hsegkg
    · intro kf hkf hseg0 hkd
      have hkmem : kf ∈ s.filter (fun kv => !kv.2.segmentation_field) :=
        List.mem_filter.mpr ⟨hkf, by rw [hseg0]; rfl⟩
      obtain ⟨c, hcf, haf⟩ := mapRetained_lookup _ hmr hgf.2.1 kf hkmem hkd
      have hbase : kf.1 ∉ keysOf (tableBase tn2 none ++ if crud then crudColumns else []) :=
        goodSchema_fresh_base tn2 none crud ⟨hcoh, hnodup, hkeys⟩ kf hkf
      exact ⟨c, by rw [aGet_append_right _ hbase, haf]⟩

/-- The spec's scenario schema: `pt` (geometry point, indexed),
`category` and `classification_system` (strings), plus one
REFERENCE-marked segmentation field `supervoxel_id`. -/
def scenarioSchema : Schema :=
  [("pt", ⟨.PostGISFieldT, false, false, true, false, "POINTZ"⟩),
   ("category", ⟨.StrT, false, false, false, false, "POINTZ"⟩),
   ("classification_system", ⟨.StrT, false, false, false, false, "POINTZ"⟩),
   ("supervoxel_id", ⟨.ReferenceTableFieldT, true, false, false, true, "POINTZ"⟩)]

/-- The single model one compile of `scenarioSchema` with segmentation
source `seg1` and metadata `reference_table = base` produces. -/
def scenarioSegModel : Model :=
  [("__tablename__", .strE "T__seg1"),
   ("id", .colE ⟨.BigIntegerC, some "T.id", true, false, true⟩),
   ("__mapper_args__", .mapperE "T__seg1" true),
   ("created", .colE ⟨.DateTimeC, none, false, true, false⟩),
   ("deleted", .colE ⟨.DateTimeC, none, false, true, true⟩),
   ("superceded_id", .colE ⟨.BigIntegerC, none, false, false, true⟩),
   ("supervoxel_id", .colE ⟨.BigIntegerC, some "base.id", false, false, true⟩)]

/-- C1 counterexample: compiling the scenario schema once with
segmentation source `seg1` and metadata `reference_table = base`
produces ONE table, not two: the registry afterwards holds exactly the
segmentation model `T__seg1`, which contains none of the annotation
fields — no base table is produced by that call. -/
theorem C1_counterexample :
    make_model_from_schema ⟨[], []⟩ "T" scenarioSchema (some "seg1")
      (.dict (some "base")) true =
      (⟨[("T", scenarioSegModel)], []⟩, .ok (scenarioSegModel, true)) ∧
    aGet scenarioSegModel "__tablename__" = some (.strE "T__seg1") ∧
    aGet scenarioSegModel "pt" = none ∧
    aGet scenarioSegModel "category" = none ∧
    aGet scenarioSegModel "classification_system" = none := by
  decide

theorem C1_witness :
    (∃ M, make_model_from_schema ⟨[], []⟩ "T" scenarioSchema (some "seg1")
        (.dict (some "base")) true =
        (set_model ⟨[], []⟩ "T" M false, .ok (M, true)) ∧
      aGet M "__tablename__" = some (.strE ("T" ++ "__" ++ "seg1")) ∧
      aGet M "id" = some (.colE ⟨.BigIntegerC, some ("T" ++ ".id"), true, false, true⟩) ∧
      aGet M "__mapper_args__" = some (.mapperE ("T" ++ "__" ++ "seg1") true) ∧
      (∀ kf ∈ scenarioSchema, kf.2.segmentation_field = false → aGet M kf.1 = none) ∧
      (∀ kf ∈ scenarioSchema, kf.2.segmentation_field = true →
        kf.2.drop_column = false → kf.2.is_reference = true →
        aGet M kf.1 =
          some (.colE ⟨.BigIntegerC, some ("base" ++ ".id"), false, kf.2.has_index, true⟩))) ∧
    (∃ M2, make_model_from_schema ⟨[], []⟩ "Tbase" scenarioSchema none
        (.dict (some "base")) true =
        (set_model ⟨[], []⟩ "Tbase" M2 false, .ok (M2, true)) ∧
      aGet M2 "__tablename__" = some (.strE "Tbase") ∧
      (∀ kf ∈ scenarioSchema, kf.2.segmentation_field = true → aGet M2 kf.1 = none) ∧
      (∀ kf ∈ scenarioSchema, kf.2.segmentation_field = false →
        kf.2.drop_column = false → ∃ c, aGet M2 kf.1 = some (.colE c))) :=
  C1_segmentation_split ⟨[], []⟩ "T" "Tbase" scenarioSchema "seg1" "base" true
    (by decide) (by decide) (by decide) (by decide) (by decide)
